import Mathlib

/-!
A shallow embedding of the IRC server in `simple_irc_server.py` and proofs
about its behaviour.

The embedding follows the Python source line by line:

- Python strings are Lean `String` (a structure over `List Char`); the ASCII
  case folds `str.lower` / `str.upper`, no-argument `str.split`,
  `" ".join`, `str.lstrip(":")` and `str.startswith("#")` are modelled by
  executable character-level functions below (the protocol operates on
  ASCII command lines, where the Python unicode functions agree with the
  ASCII ones).
- The module-level dicts `channels` and `channel_names` are modelled as
  insertion-ordered association lists, matching Python dict ordering:
  assignment to an existing key updates in place, a new key is appended,
  `del` removes the entry.
- Python `set`s of members / channel keys are modelled as duplicate-free
  insertion-ordered lists (`pyAdd` appends when absent, `List.erase`
  removes); iteration order over a Python set is arbitrary, and every
  theorem below that inspects a broadcast only counts or locates lines,
  never relies on their order.
- `IRCClient` objects are identified by a `Nat` id; the per-object fields
  `nick`, `user`, `registered`, `self.channels` form `Sess`.  A fresh id is
  drawn from a counter on every accepted connection, reflecting that each
  `IRCClient` object is distinct.
- Every operation returns the mutated server state together with the list
  of `(recipient id, line)` pairs pushed over sockets (`self.send` /
  `client.send`); the actual socket write is outside the model.
-/

namespace IRC

/-- ASCII lowercase fold of one character (`str.lower` on ASCII input). -/
def charLower (c : Char) : Char :=
  if 'A' ≤ c && c ≤ 'Z' then Char.ofNat (c.toNat + 32) else c

/-- ASCII uppercase fold of one character (`str.upper` on ASCII input). -/
def charUpper (c : Char) : Char :=
  if 'a' ≤ c && c ≤ 'z' then Char.ofNat (c.toNat - 32) else c

/-- `s.lower()` : ASCII case fold used for channel keys. -/
def strLower (s : String) : String := ⟨s.data.map charLower⟩

/-- `s.upper()` : ASCII case fold used for command names. -/
def strUpper (s : String) : String := ⟨s.data.map charUpper⟩

/-- Worker for `str.split()` with no separator: accumulate the current word
(reversed) and cut at every whitespace run, dropping empty pieces. -/
def pyWordsAux : List Char → List Char → List (List Char)
  | [], acc => if acc = [] then [] else [acc.reverse]
  | c :: cs, acc =>
      if c.isWhitespace then
        if acc = [] then pyWordsAux cs [] else acc.reverse :: pyWordsAux cs []
      else pyWordsAux cs (c :: acc)

/-- Python `message.split()`: whitespace-run separated tokens, no empties. -/
def pySplit (s : String) : List String := (pyWordsAux s.data []).map fun w => ⟨w⟩

/-- Worker for `" ".join`: interleave a single space between the pieces. -/
def joinChars : List (List Char) → List Char
  | [] => []
  | [w] => w
  | w :: ws => w ++ ' ' :: joinChars ws

/-- Python `" ".join(l)`. -/
def spaceJoin (l : List String) : String := ⟨joinChars (l.map String.data)⟩

/-- Python `s.lstrip(":")`: drop every leading colon. -/
def lstripColon (s : String) : String := ⟨s.data.dropWhile (· == ':')⟩

/-- Python `s.startswith("#")`. -/
def startsHash (s : String) : Bool :=
  match s.data with
  | [] => false
  | c :: _ => c == '#'

/-- Dict lookup on an association list (first matching key). -/
def alookup {α : Type} : List (String × α) → String → Option α
  | [], _ => none
  | (k, v) :: m, key => if k = key then some v else alookup m key

/-- Dict assignment to an existing key: update in place, keep order. -/
def aupdate {α : Type} : List (String × α) → String → α → List (String × α)
  | [], _, _ => []
  | (k, v) :: m, key, val =>
      if k = key then (k, val) :: m else (k, v) :: aupdate m key val

/-- Dict `del` (total: removing an absent key is the identity, matching the
`if key in dict: del dict[key]` guard in the source). -/
def aerase {α : Type} (m : List (String × α)) (key : String) : List (String × α) :=
  m.filter fun p => p.1 != key

/-- Python `set.add`: append when absent. -/
def pyAdd {α : Type} [DecidableEq α] (l : List α) (a : α) : List α :=
  if a ∈ l then l else l ++ [a]

/-- Per-connection session state: the `IRCClient` fields `nick`, `user`,
`registered` and `self.channels` (a set of case-folded channel keys). -/
structure Sess where
  nick : Option String
  user : Option String
  registered : Bool
  chans : List String
deriving DecidableEq

/-- Field state of a freshly constructed `IRCClient`. -/
def freshSess : Sess := ⟨none, none, false, []⟩

/-- The process-wide mutable state: the `clients` dict (keys only — the
values are the constant `True`), one session per client id, the `channels`
dict mapping case-folded key to member set, the `channel_names` dict mapping
case-folded key to the display name recorded at creation, and the id
counter modelling allocation of distinct `IRCClient` objects. -/
structure SrvState where
  clients : List Nat
  sess : Nat → Sess
  chans : List (String × List Nat)
  chanNames : List (String × String)
  nextId : Nat

/-- The module-level initial state:
`channels = {"#hackerbot": set()}`, `channel_names = {"#hackerbot": "#hackerbot"}`. -/
def initState : SrvState :=
  { clients := []
    sess := fun _ => freshSess
    chans := [("#hackerbot", [])]
    chanNames := [("#hackerbot", "#hackerbot")]
    nextId := 0 }

/-- Update one client's session fields. -/
def setSess (st : SrvState) (cid : Nat) (f : Sess → Sess) : SrvState :=
  { st with sess := fun c => if c = cid then f (st.sess c) else st.sess c }

/-- The member set of the channel stored under key `k` (empty when the key
is absent; the source only indexes `channels[k]` when the key is present). -/
def memberSet (st : SrvState) (k : String) : List Nat :=
  (alookup st.chans k).getD []

/-- Rendering of `self.nick` inside an f-string: Python prints `None` for
an unset nickname. -/
def optNick : Option String → String
  | some n => n
  | none => "None"

/-- `send_numeric`: `f":irc.local {numeric} {target} {message}"`. -/
def numericLine (num target msg : String) : String :=
  ":irc.local " ++ num ++ " " ++ target ++ " " ++ msg

/-- A relayed line `f":{nick}!~user@localhost {CMD} {rest}"`. -/
def fromNick (n cmd rest : String) : String :=
  ":" ++ n ++ "!~user@localhost " ++ cmd ++ " " ++ rest

/-- Python truthiness of an optional string (`if self.nick and self.user`). -/
def truthy : Option String → Bool
  | none => false
  | some s => s != ""

/-- The eight lines of the welcome burst sent by `welcome`. -/
def welcomeBurst (n : String) : List String :=
  [ numericLine "001" n ":Welcome to the Hackerbot IRC Server"
  , numericLine "002" n ":Your host is irc.local"
  , numericLine "003" n ":This server was created just now"
  , numericLine "004" n "irc.local 1.0"
  , numericLine "251" n ":There are 1 users and 0 services on 1 servers"
  , numericLine "255" n ":I have 1 clients and 0 servers"
  , numericLine "372" n ":- Message of the day - "
  , numericLine "376" n ":End of MOTD command" ]

/-- `IRCClient.welcome`. -/
def welcome (st : SrvState) (cid : Nat) : SrvState × List (Nat × String) :=
  let ss := st.sess cid
  if truthy ss.nick && truthy ss.user && !ss.registered then
    (setSess st cid fun s => { s with registered := true },
     (welcomeBurst (optNick ss.nick)).map fun l => (cid, l))
  else (st, [])

/-- `[c.nick for c in members if c.nick]` — the truthy nicknames of a member
list, in iteration order. -/
def nickList (st : SrvState) (mem : List Nat) : List String :=
  mem.filterMap fun c =>
    match (st.sess c).nick with
    | some n => if n = "" then none else some n
    | none => none

/-- `IRCClient.join_channel`. -/
def join_channel (st : SrvState) (cid : Nat) (channel : String) :
    SrvState × List (Nat × String) :=
  let kLow := strLower channel
  let st1 :=
    if alookup st.chans kLow = none then
      { st with chans := st.chans ++ [(kLow, [])]
                chanNames := st.chanNames ++ [(kLow, channel)] }
    else st
  let canonical := (alookup st1.chanNames kLow).getD channel
  let st2 := setSess st1 cid fun s => { s with chans := pyAdd s.chans kLow }
  let mem1 := pyAdd (memberSet st2 kLow) cid
  let st3 := { st2 with chans := aupdate st2.chans kLow mem1 }
  let n := optNick ((st.sess cid).nick)
  (st3,
    [ (cid, fromNick n "JOIN" canonical)
    , (cid, numericLine "331" n (canonical ++ " :No topic is set"))
    , (cid, numericLine "353" n ("= " ++ canonical ++ " :" ++ spaceJoin (nickList st3 mem1)))
    , (cid, numericLine "366" n (canonical ++ " :End of NAMES list")) ]
    ++ (mem1.filter fun c => c != cid).map fun c => (c, fromNick n "JOIN" canonical))

/-- `IRCClient.part_channel`. -/
def part_channel (st : SrvState) (cid : Nat) (channel : String) :
    SrvState × List (Nat × String) :=
  let kLow := strLower channel
  if kLow ∈ (st.sess cid).chans then
    let st1 := setSess st cid fun s => { s with chans := s.chans.erase kLow }
    let mem := memberSet st1 kLow
    let mem1 := if cid ∈ mem then mem.erase cid else mem
    let st2 := { st1 with chans := aupdate st1.chans kLow mem1 }
    let canonical := (alookup st.chanNames kLow).getD channel
    let n := optNick ((st.sess cid).nick)
    let st3 :=
      if mem1 = [] then
        { st2 with chans := aerase st2.chans kLow
                   chanNames := aerase st2.chanNames kLow }
      else st2
    (st3,
      (cid, fromNick n "PART" canonical)
        :: mem1.map fun c => (c, fromNick n "PART" canonical))
  else (st, [])

/-- `IRCClient.disconnect`, channel-parting phase: part every channel in the
snapshot `list(self.channels)`, addressing each by its canonical name. -/
def partAll (cid : Nat) : SrvState → List String → SrvState × List (Nat × String)
  | st, [] => (st, [])
  | st, k :: ks =>
      let canonical := (alookup st.chanNames k).getD k
      let p := part_channel st cid canonical
      let q := partAll cid p.1 ks
      (q.1, p.2 ++ q.2)

/-- `IRCClient.disconnect`: drop the client from the global dict, then part
all its channels (closing the socket is outside the model). -/
def disconnect (st : SrvState) (cid : Nat) : SrvState × List (Nat × String) :=
  let st1 := { st with clients := st.clients.erase cid }
  partAll cid st1 ((st1.sess cid).chans)

/-- The command dispatcher: the body of `IRCClient.handle_message` from the
point where `parts` has been computed.  Mirrors the `elif` chain. -/
def dispatch (st : SrvState) (cid : Nat) (parts : List String) :
    SrvState × List (Nat × String) :=
  if parts = [] then (st, [])
  else
    let command := strUpper (parts.getD 0 "")
    if command = "CAP" ∧ 1 < parts.length then
      let sub := strUpper (parts.getD 1 "")
      if sub = "LS" then (st, [(cid, "CAP * LS :")])
      else if sub = "END" then (st, [])
      else if sub = "REQ" then (st, [(cid, "CAP * ACK :")])
      else (st, [])
    else if command = "NICK" ∧ 1 < parts.length then
      let st1 := setSess st cid fun s => { s with nick := some (parts.getD 1 "") }
      welcome st1 cid
    else if command = "USER" ∧ 4 < parts.length then
      let st1 := setSess st cid fun s => { s with user := some (parts.getD 1 "") }
      welcome st1 cid
    else if command = "JOIN" ∧ 1 < parts.length then
      let c0 := parts.getD 1 ""
      join_channel st cid (if startsHash c0 then c0 else "#" ++ c0)
    else if command = "PART" ∧ 1 < parts.length then
      let c0 := parts.getD 1 ""
      part_channel st cid (if startsHash c0 then c0 else "#" ++ c0)
    else if command = "PRIVMSG" ∧ 2 < parts.length then
      let target := parts.getD 1 ""
      let msg := lstripColon (spaceJoin (parts.drop 2))
      let n := optNick ((st.sess cid).nick)
      if startsHash target then
        match alookup st.chans (strLower target) with
        | some mem =>
            let canonical := (alookup st.chanNames (strLower target)).getD target
            (st, (mem.filter fun c => c != cid).map fun c =>
                   (c, fromNick n "PRIVMSG" (canonical ++ " :" ++ msg)))
        | none =>
            (st, [(cid, numericLine "401" n (target ++ " :No such nick/channel"))])
      else (st, [(cid, numericLine "401" n (target ++ " :No such nick/channel"))])
    else if command = "PING" then
      if 1 < parts.length then (st, [(cid, "PONG :" ++ parts.getD 1 "")])
      else (st, [(cid, "PONG")])
    else if command = "QUIT" then disconnect st cid
    else if command = "WHOIS" ∧ 1 < parts.length then
      let target := parts.getD 1 ""
      let n := optNick ((st.sess cid).nick)
      (st, [ (cid, numericLine "311" n (target ++ " ~user localhost * :Hackerbot User"))
           , (cid, numericLine "312" n (target ++ " irc.local :Hackerbot IRC Server"))
           , (cid, numericLine "318" n (target ++ " :End of WHOIS list")) ])
    else if command = "LIST" then
      let n := optNick ((st.sess cid).nick)
      (st, (st.chans.map fun kv =>
              (cid, numericLine "322" n
                ((alookup st.chanNames kv.1).getD kv.1 ++ " "
                  ++ toString kv.2.length ++ " :Development Channel")))
           ++ [(cid, numericLine "323" n ":End of LIST")])
    else if command = "NAMES" ∧ 1 < parts.length then
      let channel := parts.getD 1 ""
      let n := optNick ((st.sess cid).nick)
      let pre :=
        match alookup st.chans (strLower channel) with
        | some mem =>
            let canonical := (alookup st.chanNames (strLower channel)).getD channel
            [(cid, numericLine "353" n ("= " ++ canonical ++ " :" ++ spaceJoin (nickList st mem)))]
        | none => []
      (st, pre ++ [(cid, numericLine "366" n (channel ++ " :End of NAMES list"))])
    else (st, [])

/-- `IRCClient.handle_message`. -/
def handle_message (st : SrvState) (cid : Nat) (message : String) :
    SrvState × List (Nat × String) :=
  if message = "" then (st, []) else dispatch st cid (pySplit message)

/-- The externally triggered events of one server run: a connection is
accepted (`handle_client` constructs a fresh `IRCClient`), a line arrives
for a client, or a client's socket read ends (the `finally: disconnect`). -/
inductive Op where
  | connect : Op
  | line : Nat → String → Op
  | close : Nat → Op
deriving DecidableEq

/-- One event step, returning the new state and the emitted lines. -/
def stepOp (st : SrvState) : Op → SrvState × List (Nat × String)
  | .connect =>
      ({ st with clients := st.clients ++ [st.nextId]
                 sess := fun c => if c = st.nextId then freshSess else st.sess c
                 nextId := st.nextId + 1 }, [])
  | .line c m => handle_message st c m
  | .close c => disconnect st c

/-- Event validity: lines and closes only concern ids of clients that have
been constructed. -/
def opOK (st : SrvState) : Op → Bool
  | .connect => true
  | .line c _ => c < st.nextId
  | .close c => c < st.nextId

/-- Run a list of events, concatenating all emitted lines. -/
def runFrom (st : SrvState) : List Op → SrvState × List (Nat × String)
  | [] => (st, [])
  | op :: ops =>
      let p := stepOp st op
      let q := runFrom p.1 ops
      (q.1, p.2 ++ q.2)

/-- Check a whole event list for validity. -/
def validFrom (st : SrvState) : List Op → Bool
  | [] => true
  | op :: ops => opOK st op && validFrom (stepOp st op).1 ops

/-- A state is reachable when some valid event list leads to it from the
module-level initial state. -/
def Reachable (s : SrvState) : Prop :=
  ∃ ops, validFrom initState ops = true ∧ s = (runFrom initState ops).1

/-- Recogniser for the first line of the welcome burst: a numeric 001 line
(the line begins with `:irc.local 001 `). -/
def is001 (l : String) : Bool := l.data.take 15 == (":irc.local 001 ").data

/-- How many numeric-001 lines of `out` are addressed to client `c`. -/
def burstCount (out : List (Nat × String)) (c : Nat) : Nat :=
  (out.filter fun q => q.1 == c && is001 q.2).length

/-- Everything that holds of the shared registry at every quiescent point of
a (sequentialised) server run. -/
structure Inv (s : SrvState) : Prop where
  mem_iff : ∀ c k, k ∈ (s.sess c).chans ↔ c ∈ memberSet s k
  chanKeys_nodup : (s.chans.map Prod.fst).Nodup
  nameKeys_nodup : (s.chanNames.map Prod.fst).Nodup
  keys_align : ∀ k, (alookup s.chans k).isSome = (alookup s.chanNames k).isSome
  canon_lower : ∀ k n, alookup s.chanNames k = some n → strLower n = k
  fresh_hi : ∀ c, s.nextId ≤ c → s.sess c = freshSess
  seed_or_occupied : ∀ k m, alookup s.chans k = some m → m ≠ [] ∨ k = "#hackerbot"
  reg_iff : ∀ c, (s.sess c).registered = (truthy (s.sess c).nick && truthy (s.sess c).user)
  sessChans_nodup : ∀ c, (s.sess c).chans.Nodup
  members_nodup : ∀ k m, alookup s.chans k = some m → m.Nodup
  nick_noWs : ∀ c n, (s.sess c).nick = some n → ∀ ch ∈ n.data, ch.isWhitespace = false


/-! ### Association-list (dict) lemmas -/

theorem alookup_isSome_iff_mem {α : Type} (m : List (String × α)) (k : String) :
    (alookup m k).isSome = true ↔ k ∈ m.map Prod.fst := by
  induction m with
  | nil => simp [alookup]
  | cons p m ih =>
      obtain ⟨k1, v1⟩ := p
      by_cases h : k1 = k
      · simp [alookup, h]
      · simp only [alookup, if_neg h, List.map_cons, List.mem_cons, ih]
        constructor
        · exact Or.inr
        · rintro (rfl | hm)
          · exact absurd rfl h
          · exact hm

theorem alookup_eq_none_iff {α : Type} (m : List (String × α)) (k : String) :
    alookup m k = none ↔ k ∉ m.map Prod.fst := by
  rw [← alookup_isSome_iff_mem]
  cases alookup m k <;> simp

theorem alookup_aupdate_self {α : Type} {m : List (String × α)} {k : String} (v : α)
    (h : (alookup m k).isSome = true) : alookup (aupdate m k v) k = some v := by
  induction m with
  | nil => simp [alookup] at h
  | cons p m ih =>
      obtain ⟨k1, v1⟩ := p
      by_cases hk : k1 = k
      · simp [alookup, aupdate, hk]
      · simp only [alookup, aupdate, if_neg hk] at h ⊢
        exact ih h

theorem alookup_aupdate_ne {α : Type} {m : List (String × α)} {k k2 : String} (v : α)
    (h : k2 ≠ k) : alookup (aupdate m k v) k2 = alookup m k2 := by
  induction m with
  | nil => simp [aupdate]
  | cons p m ih =>
      obtain ⟨k1, v1⟩ := p
      simp only [aupdate]
      by_cases hk : k1 = k
      · subst hk
        rw [if_pos rfl]
        have hne : ¬ k1 = k2 := fun hh => h (hh ▸ rfl)
        simp only [alookup, if_neg hne]
      · rw [if_neg hk]
        by_cases hk2 : k1 = k2
        · simp [alookup, hk2]
        · simp only [alookup, if_neg hk2]
          exact ih

theorem aupdate_keys {α : Type} (m : List (String × α)) (k : String) (v : α) :
    (aupdate m k v).map Prod.fst = m.map Prod.fst := by
  induction m with
  | nil => simp [aupdate]
  | cons p m ih =>
      obtain ⟨k1, v1⟩ := p
      by_cases hk : k1 = k <;> simp [aupdate, hk, ih]

theorem aerase_cons {α : Type} (k1 : String) (v1 : α) (m : List (String × α)) (k : String) :
    aerase ((k1, v1) :: m) k =
      if k1 = k then aerase m k else (k1, v1) :: aerase m k := by
  by_cases hk : k1 = k
  · simp [aerase, List.filter_cons, hk]
  · simp [aerase, List.filter_cons, hk]

theorem alookup_aerase_self {α : Type} (m : List (String × α)) (k : String) :
    alookup (aerase m k) k = none := by
  induction m with
  | nil => simp [aerase, alookup]
  | cons p m ih =>
      obtain ⟨k1, v1⟩ := p
      rw [aerase_cons]
      by_cases hk : k1 = k
      · rw [if_pos hk]
        exact ih
      · rw [if_neg hk]
        simp only [alookup, if_neg hk]
        exact ih

theorem alookup_aerase_ne {α : Type} {m : List (String × α)} {k k2 : String}
    (h : k2 ≠ k) : alookup (aerase m k) k2 = alookup m k2 := by
  induction m with
  | nil => simp [aerase, alookup]
  | cons p m ih =>
      obtain ⟨k1, v1⟩ := p
      rw [aerase_cons]
      by_cases hk : k1 = k
      · rw [if_pos hk]
        have hne : ¬ k1 = k2 := fun hh => h (hh ▸ hk)
        simp only [alookup, if_neg hne]
        exact ih
      · rw [if_neg hk]
        by_cases hk2 : k1 = k2
        · simp [alookup, hk2]
        · simp only [alookup, if_neg hk2]
          exact ih

theorem aerase_keys_nodup {α : Type} {m : List (String × α)}
    (h : (m.map Prod.fst).Nodup) (k : String) :
    ((aerase m k).map Prod.fst).Nodup :=
  List.Nodup.sublist (List.Sublist.map Prod.fst (List.filter_sublist m)) h

theorem alookup_append_of_none {α : Type} {m : List (String × α)} {k : String} (v : α)
    (h : alookup m k = none) : alookup (m ++ [(k, v)]) k = some v := by
  induction m with
  | nil => simp [alookup]
  | cons p m ih =>
      obtain ⟨k1, v1⟩ := p
      by_cases hk : k1 = k
      · simp [alookup, hk] at h
      · simp only [alookup, if_neg hk] at h ⊢
        exact ih h

theorem alookup_append_of_ne {α : Type} {m : List (String × α)} {k k2 : String} (v : α)
    (h : k ≠ k2) : alookup (m ++ [(k, v)]) k2 = alookup m k2 := by
  induction m with
  | nil => simp [alookup, h]
  | cons p m ih =>
      obtain ⟨k1, v1⟩ := p
      by_cases hk : k1 = k2 <;> simp [alookup, hk, ih]

/-! ### Python-set (list) lemmas -/

theorem mem_pyAdd {α : Type} [DecidableEq α] {l : List α} {a b : α} :
    b ∈ pyAdd l a ↔ b ∈ l ∨ b = a := by
  by_cases h : a ∈ l
  · simp only [pyAdd, if_pos h]
    constructor
    · exact Or.inl
    · rintro (hb | rfl) <;> [exact hb; exact h]
  · simp [pyAdd, if_neg h]

theorem pyAdd_nodup {α : Type} [DecidableEq α] {l : List α} (h : l.Nodup) (a : α) :
    (pyAdd l a).Nodup := by
  by_cases ha : a ∈ l
  · simpa [pyAdd, if_pos ha] using h
  · rw [pyAdd, if_neg ha]
    rw [List.nodup_append]
    refine ⟨h, List.nodup_singleton a, ?_⟩
    intro b hb hb2
    rcases List.mem_singleton.1 hb2 with rfl
    exact ha hb

/-! ### Tokenizer lemmas -/

theorem pyWordsAux_ne_nil : ∀ (l acc : List Char), ∀ w ∈ pyWordsAux l acc, w ≠ [] := by
  intro l
  induction l with
  | nil =>
      intro acc w hw
      by_cases h : acc = []
      · simp [pyWordsAux, h] at hw
      · simp only [pyWordsAux, if_neg h, List.mem_singleton] at hw
        subst hw
        simpa using h
  | cons c cs ih =>
      intro acc w hw
      by_cases hws : c.isWhitespace
      · by_cases h : acc = []
        · simp only [pyWordsAux, if_pos hws, if_pos h] at hw
          exact ih [] w hw
        · simp only [pyWordsAux, if_pos hws, if_neg h, List.mem_cons] at hw
          rcases hw with rfl | hw
          · simpa using h
          · exact ih [] w hw
      · simp only [pyWordsAux, if_neg hws] at hw
        exact ih (c :: acc) w hw

theorem pyWordsAux_noWs : ∀ (l acc : List Char),
    (∀ c ∈ acc, c.isWhitespace = false) →
    ∀ w ∈ pyWordsAux l acc, ∀ c ∈ w, c.isWhitespace = false := by
  intro l
  induction l with
  | nil =>
      intro acc hacc w hw
      by_cases h : acc = []
      · simp [pyWordsAux, h] at hw
      · simp only [pyWordsAux, if_neg h, List.mem_singleton] at hw
        subst hw
        intro c hc
        exact hacc c (List.mem_reverse.1 hc)
  | cons c cs ih =>
      intro acc hacc w hw
      by_cases hws : c.isWhitespace
      · by_cases h : acc = []
        · simp only [pyWordsAux, if_pos hws, if_pos h] at hw
          exact ih [] (by simp) w hw
        · simp only [pyWordsAux, if_pos hws, if_neg h, List.mem_cons] at hw
          rcases hw with rfl | hw
          · intro d hd
            exact hacc d (List.mem_reverse.1 hd)
          · exact ih [] (by simp) w hw
      · simp only [pyWordsAux, if_neg hws] at hw
        refine ih (c :: acc) ?_ w hw
        intro d hd
        rcases List.mem_cons.1 hd with rfl | hd
        · simpa using hws
        · exact hacc d hd

theorem pySplit_token_ne_empty {s t : String} (h : t ∈ pySplit s) : t ≠ "" := by
  rcases List.mem_map.1 h with ⟨w, hw, rfl⟩
  have := pyWordsAux_ne_nil s.data [] w hw
  intro hc
  apply this
  exact congrArg String.data hc

theorem pySplit_token_noWs {s t : String} (h : t ∈ pySplit s) :
    ∀ c ∈ t.data, c.isWhitespace = false := by
  rcases List.mem_map.1 h with ⟨w, hw, rfl⟩
  exact pyWordsAux_noWs s.data [] (by simp) w hw

theorem pySplit_empty : pySplit "" = [] := rfl

/-! ### Branch lemmas for the dispatcher -/

theorem dispatch_user_short (st : SrvState) (cid : Nat) (p0 : String) (rest : List String)
    (hcmd : strUpper p0 = "USER") (hlen : (p0 :: rest).length < 5) :
    dispatch st cid (p0 :: rest) = (st, []) := by
  have hne : (p0 :: rest : List String) ≠ [] := by simp
  simp only [dispatch]
  rw [if_neg hne]
  simp only [List.getD_cons_zero]
  simp only [hcmd]
  rw [if_neg (fun hh => absurd hh.1 (by decide)),
      if_neg (fun hh => absurd hh.1 (by decide)),
      if_neg (fun hh => absurd hh.2 (by omega)),
      if_neg (fun hh => absurd hh.1 (by decide)),
      if_neg (fun hh => absurd hh.1 (by decide)),
      if_neg (fun hh => absurd hh.1 (by decide)),
      if_neg (by decide),
      if_neg (by decide),
      if_neg (fun hh => absurd hh.1 (by decide)),
      if_neg (by decide),
      if_neg (fun hh => absurd hh.1 (by decide))]

theorem dispatch_nick (st : SrvState) (cid : Nat) (p0 a : String) (rest : List String)
    (hcmd : strUpper p0 = "NICK") :
    dispatch st cid (p0 :: a :: rest) =
      welcome (setSess st cid fun s => { s with nick := some a }) cid := by
  have hne : (p0 :: a :: rest : List String) ≠ [] := by simp
  simp only [dispatch]
  rw [if_neg hne]
  simp only [List.getD_cons_zero, List.getD_cons_succ]
  simp only [hcmd]
  rw [if_neg (fun hh => absurd hh.1 (by decide)),
      if_pos ⟨trivial, by simp⟩]

theorem dispatch_user (st : SrvState) (cid : Nat) (p0 a : String) (rest : List String)
    (hcmd : strUpper p0 = "USER") (hlen : 4 < (p0 :: a :: rest).length) :
    dispatch st cid (p0 :: a :: rest) =
      welcome (setSess st cid fun s => { s with user := some a }) cid := by
  have hne : (p0 :: a :: rest : List String) ≠ [] := by simp
  simp only [dispatch]
  rw [if_neg hne]
  simp only [List.getD_cons_zero, List.getD_cons_succ]
  simp only [hcmd]
  rw [if_neg (fun hh => absurd hh.1 (by decide)),
      if_neg (fun hh => absurd hh.1 (by decide)),
      if_pos ⟨trivial, hlen⟩]

theorem dispatch_join (st : SrvState) (cid : Nat) (p0 a : String) (rest : List String)
    (hcmd : strUpper p0 = "JOIN") :
    dispatch st cid (p0 :: a :: rest) =
      join_channel st cid (if startsHash a then a else "#" ++ a) := by
  have hne : (p0 :: a :: rest : List String) ≠ [] := by simp
  simp only [dispatch]
  rw [if_neg hne]
  simp only [List.getD_cons_zero, List.getD_cons_succ]
  simp only [hcmd]
  rw [if_neg (fun hh => absurd hh.1 (by decide)),
      if_neg (fun hh => absurd hh.1 (by decide)),
      if_neg (fun hh => absurd hh.1 (by decide)),
      if_pos ⟨trivial, by simp⟩]

theorem dispatch_part (st : SrvState) (cid : Nat) (p0 a : String) (rest : List String)
    (hcmd : strUpper p0 = "PART") :
    dispatch st cid (p0 :: a :: rest) =
      part_channel st cid (if startsHash a then a else "#" ++ a) := by
  have hne : (p0 :: a :: rest : List String) ≠ [] := by simp
  simp only [dispatch]
  rw [if_neg hne]
  simp only [List.getD_cons_zero, List.getD_cons_succ]
  simp only [hcmd]
  rw [if_neg (fun hh => absurd hh.1 (by decide)),
      if_neg (fun hh => absurd hh.1 (by decide)),
      if_neg (fun hh => absurd hh.1 (by decide)),
      if_neg (fun hh => absurd hh.1 (by decide)),
      if_pos ⟨trivial, by simp⟩]

theorem dispatch_privmsg (st : SrvState) (cid : Nat) (p0 tgt w : String) (ws : List String)
    (hcmd : strUpper p0 = "PRIVMSG") :
    dispatch st cid (p0 :: tgt :: w :: ws) =
      (if startsHash tgt then
        match alookup st.chans (strLower tgt) with
        | some mem =>
            (st, (mem.filter fun c => c != cid).map fun c =>
                   (c, fromNick (optNick ((st.sess cid).nick)) "PRIVMSG"
                     ((alookup st.chanNames (strLower tgt)).getD tgt ++ " :"
                       ++ lstripColon (spaceJoin (w :: ws)))))
        | none =>
            (st, [(cid, numericLine "401" (optNick ((st.sess cid).nick))
                    (tgt ++ " :No such nick/channel"))])
      else
        (st, [(cid, numericLine "401" (optNick ((st.sess cid).nick))
                (tgt ++ " :No such nick/channel"))])) := by
  have hne : (p0 :: tgt :: w :: ws : List String) ≠ [] := by simp
  simp only [dispatch]
  rw [if_neg hne]
  simp only [List.getD_cons_zero, List.getD_cons_succ]
  simp only [hcmd]
  rw [if_neg (fun hh => absurd hh.1 (by decide)),
      if_neg (fun hh => absurd hh.1 (by decide)),
      if_neg (fun hh => absurd hh.1 (by decide)),
      if_neg (fun hh => absurd hh.1 (by decide)),
      if_neg (fun hh => absurd hh.1 (by decide)),
      if_pos ⟨trivial, by simp⟩]
  rfl

theorem dispatch_quit (st : SrvState) (cid : Nat) (p0 : String) (rest : List String)
    (hcmd : strUpper p0 = "QUIT") :
    dispatch st cid (p0 :: rest) = disconnect st cid := by
  have hne : (p0 :: rest : List String) ≠ [] := by simp
  simp only [dispatch]
  rw [if_neg hne]
  simp only [List.getD_cons_zero]
  simp only [hcmd]
  rw [if_neg (fun hh => absurd hh.1 (by decide)),
      if_neg (fun hh => absurd hh.1 (by decide)),
      if_neg (fun hh => absurd hh.1 (by decide)),
      if_neg (fun hh => absurd hh.1 (by decide)),
      if_neg (fun hh => absurd hh.1 (by decide)),
      if_neg (fun hh => absurd hh.1 (by decide)),
      if_neg (by decide),
      if_pos trivial]

theorem dispatch_list (st : SrvState) (cid : Nat) (p0 : String) (rest : List String)
    (hcmd : strUpper p0 = "LIST") :
    dispatch st cid (p0 :: rest) =
      (st, (st.chans.map fun kv =>
              (cid, numericLine "322" (optNick ((st.sess cid).nick))
                ((alookup st.chanNames kv.1).getD kv.1 ++ " "
                  ++ toString kv.2.length ++ " :Development Channel")))
           ++ [(cid, numericLine "323" (optNick ((st.sess cid).nick)) ":End of LIST")]) := by
  have hne : (p0 :: rest : List String) ≠ [] := by simp
  simp only [dispatch]
  rw [if_neg hne]
  simp only [List.getD_cons_zero]
  simp only [hcmd]
  rw [if_neg (fun hh => absurd hh.1 (by decide)),
      if_neg (fun hh => absurd hh.1 (by decide)),
      if_neg (fun hh => absurd hh.1 (by decide)),
      if_neg (fun hh => absurd hh.1 (by decide)),
      if_neg (fun hh => absurd hh.1 (by decide)),
      if_neg (fun hh => absurd hh.1 (by decide)),
      if_neg (by decide),
      if_neg (by decide),
      if_neg (fun hh => absurd hh.1 (by decide)),
      if_pos trivial]

/-! ### The inductive invariant of reachable server states -/

theorem inv_init : Inv initState := by
  constructor
  · intro c k
    simp only [initState, freshSess, memberSet, alookup]
    by_cases h : "#hackerbot" = k <;> simp [h]
  · simp [initState]
  · simp [initState]
  · intro k
    simp only [initState, alookup]
    by_cases h : "#hackerbot" = k <;> simp [h]
  · intro k n hn
    simp only [initState, alookup] at hn
    by_cases h : "#hackerbot" = k
    · rw [if_pos h] at hn
      cases hn
      exact h ▸ (by decide)
    · rw [if_neg h] at hn
      cases hn
  · intro c _
    rfl
  · intro k m hm
    simp only [initState, alookup] at hm
    by_cases h : "#hackerbot" = k
    · rw [if_pos h] at hm
      exact Or.inr h.symm
    · rw [if_neg h] at hm
      cases hm
  · intro c
    rfl
  · intro c
    simp [initState, freshSess]
  · intro k m hm
    simp only [initState, alookup] at hm
    by_cases h : "#hackerbot" = k
    · rw [if_pos h] at hm
      cases hm
      exact List.nodup_nil
    · rw [if_neg h] at hm
      cases hm
  · intro c n hn
    simp [initState, freshSess] at hn

theorem setSess_sess_self (st : SrvState) (cid : Nat) (g : Sess → Sess) :
    (setSess st cid g).sess cid = g (st.sess cid) := by
  simp [setSess]

theorem setSess_sess_ne (st : SrvState) (cid : Nat) (g : Sess → Sess)
    {c : Nat} (h : c ≠ cid) : (setSess st cid g).sess c = st.sess c := by
  simp [setSess, h]

theorem setSess_setSess (st : SrvState) (cid : Nat) (f g : Sess → Sess) :
    setSess (setSess st cid f) cid g = setSess st cid fun s => g (f s) := by
  cases st
  simp only [setSess]
  congr 1
  funext c
  by_cases h : c = cid <;> simp [h]

/-- Session updates that keep the channel set, keep the `registered ↔ nick
and user truthy` equation and store only whitespace-free nicknames preserve
the invariant. -/
theorem inv_of_sess_update (st : SrvState) (cid : Nat) (hcid : cid < st.nextId)
    (g : Sess → Sess)
    (hchans : (g (st.sess cid)).chans = (st.sess cid).chans)
    (hreg : (g (st.sess cid)).registered
      = (truthy (g (st.sess cid)).nick && truthy (g (st.sess cid)).user))
    (hnick : ∀ n, (g (st.sess cid)).nick = some n → ∀ ch ∈ n.data, ch.isWhitespace = false)
    (h : Inv st) : Inv (setSess st cid g) := by
  have hsess : ∀ c, (setSess st cid g).sess c
      = if c = cid then g (st.sess cid) else st.sess c := by
    intro c
    by_cases hc : c = cid
    · subst hc
      simp [setSess]
    · simp [setSess, hc]
  constructor
  · intro c k
    rw [hsess c]
    by_cases hc : c = cid
    · rw [if_pos hc, hchans]
      subst hc
      exact h.mem_iff c k
    · rw [if_neg hc]
      exact h.mem_iff c k
  · exact h.chanKeys_nodup
  · exact h.nameKeys_nodup
  · exact h.keys_align
  · exact h.canon_lower
  · intro c hc
    have hc2 : st.nextId ≤ c := hc
    rw [hsess c, if_neg (by omega)]
    exact h.fresh_hi c hc2
  · exact h.seed_or_occupied
  · intro c
    rw [hsess c]
    by_cases hc : c = cid
    · rw [if_pos hc]
      exact hreg
    · rw [if_neg hc]
      exact h.reg_iff c
  · intro c
    rw [hsess c]
    by_cases hc : c = cid
    · rw [if_pos hc, hchans]
      exact h.sessChans_nodup cid
    · rw [if_neg hc]
      exact h.sessChans_nodup c
  · exact h.members_nodup
  · intro c n hn
    rw [hsess c] at hn
    by_cases hc : c = cid
    · rw [if_pos hc] at hn
      exact hnick n hn
    · rw [if_neg hc] at hn
      exact h.nick_noWs c n hn

/-- Processing `NICK <a>` (the field update plus the `welcome` check)
preserves the invariant. -/
theorem inv_nickCmd (st : SrvState) (cid : Nat) (hcid : cid < st.nextId)
    (a : String) (ha : a ≠ "") (hnoWs : ∀ ch ∈ a.data, ch.isWhitespace = false)
    (h : Inv st) :
    Inv (welcome (setSess st cid fun s => { s with nick := some a }) cid).1 := by
  have htru : truthy (some a) = true := by simp [truthy, ha]
  have hold := h.reg_iff cid
  rw [welcome]
  simp only [setSess_sess_self]
  by_cases hcond : (truthy (some a)
      && truthy (st.sess cid).user && !(st.sess cid).registered) = true
  · rw [if_pos hcond]
    simp only
    rw [setSess_setSess]
    refine inv_of_sess_update st cid hcid _ (by simp) ?_ (by simpa using hnoWs) h
    simp only [htru, Bool.true_and, Bool.and_eq_true, Bool.not_eq_eq_eq_not,
      Bool.not_true] at hcond
    simp [htru, hcond.1]
  · rw [if_neg hcond]
    simp only
    refine inv_of_sess_update st cid hcid _ (by simp) ?_ (by simpa using hnoWs) h
    rcases Bool.eq_false_or_eq_true (truthy (st.sess cid).user) with hu | hu <;>
      rcases Bool.eq_false_or_eq_true ((st.sess cid).registered) with hr | hr <;>
      simp_all

/-- Processing a well-formed `USER` line preserves the invariant. -/
theorem inv_userCmd (st : SrvState) (cid : Nat) (hcid : cid < st.nextId)
    (a : String) (ha : a ≠ "") (h : Inv st) :
    Inv (welcome (setSess st cid fun s => { s with user := some a }) cid).1 := by
  have htru : truthy (some a) = true := by simp [truthy, ha]
  have hold := h.reg_iff cid
  rw [welcome]
  simp only [setSess_sess_self]
  by_cases hcond : (truthy (st.sess cid).nick
      && truthy (some a) && !(st.sess cid).registered) = true
  · rw [if_pos hcond]
    simp only
    rw [setSess_setSess]
    refine inv_of_sess_update st cid hcid _ (by simp) ?_ ?_ h
    · simp only [Bool.and_eq_true, Bool.not_eq_eq_eq_not, Bool.not_true] at hcond
      simp [htru, hcond.1.1]
    · intro n hn
      exact h.nick_noWs cid n (by simpa using hn)
  · rw [if_neg hcond]
    simp only
    refine inv_of_sess_update st cid hcid _ (by simp) ?_ ?_ h
    · rcases Bool.eq_false_or_eq_true (truthy (st.sess cid).nick) with hu | hu <;>
        rcases Bool.eq_false_or_eq_true ((st.sess cid).registered) with hr | hr <;>
        simp_all
    · intro n hn
      exact h.nick_noWs cid n (by simpa using hn)

theorem pyAdd_ne_nil {α : Type} [DecidableEq α] (l : List α) (a : α) :
    pyAdd l a ≠ [] := by
  by_cases h : a ∈ l
  · rw [pyAdd, if_pos h]
    rintro rfl
    simp at h
  · rw [pyAdd, if_neg h]
    simp

theorem aupdate_append_self {α : Type} {m : List (String × α)} {k : String}
    (v v2 : α) (h : alookup m k = none) :
    aupdate (m ++ [(k, v)]) k v2 = m ++ [(k, v2)] := by
  induction m with
  | nil => simp [aupdate]
  | cons p m ih =>
      obtain ⟨k1, v1⟩ := p
      by_cases hk : k1 = k
      · simp [alookup, hk] at h
      · simp only [alookup, if_neg hk] at h
        simp only [List.cons_append, aupdate, if_neg hk]
        exact congrArg (List.cons (k1, v1)) (ih h)

/-- The state reached by `join_channel` when the key is new: the channel is
appended with exactly the joiner as member, the given casing is recorded as
display name, and the key is added to the joiner's channel set. -/
theorem join_fst_new (st : SrvState) (cid : Nat) (channel : String)
    (hnew : alookup st.chans (strLower channel) = none) :
    (join_channel st cid channel).1 =
      { st with
        sess := fun c => if c = cid then
            { st.sess c with chans := pyAdd (st.sess c).chans (strLower channel) }
          else st.sess c
        chans := st.chans ++ [(strLower channel, [cid])]
        chanNames := st.chanNames ++ [(strLower channel, channel)] } := by
  simp only [join_channel, setSess, memberSet]
  rw [if_pos hnew, alookup_append_of_none _ hnew]
  simp only [Option.getD_some]
  rw [show pyAdd ([] : List Nat) cid = [cid] from by simp [pyAdd]]
  rw [aupdate_append_self _ _ hnew]

/-- The state reached by `join_channel` when the key already exists: the
joiner is added to the member set in place and to its own channel set; the
display name is untouched. -/
theorem join_fst_old (st : SrvState) (cid : Nat) (channel : String) (m0 : List Nat)
    (hold : alookup st.chans (strLower channel) = some m0) :
    (join_channel st cid channel).1 =
      { st with
        sess := fun c => if c = cid then
            { st.sess c with chans := pyAdd (st.sess c).chans (strLower channel) }
          else st.sess c
        chans := aupdate st.chans (strLower channel) (pyAdd m0 cid) } := by
  simp only [join_channel, setSess, memberSet]
  rw [if_neg (by simp [hold]), hold]
  simp only [Option.getD_some]

theorem memberSet_setSess (st : SrvState) (cid : Nat) (f : Sess → Sess) (k : String) :
    memberSet (setSess st cid f) k = memberSet st k := rfl

/-- `part_channel` when the client does not occupy the key: a silent no-op. -/
theorem part_noop (st : SrvState) (cid : Nat) (channel : String)
    (hout : strLower channel ∉ (st.sess cid).chans) :
    part_channel st cid channel = (st, []) := by
  simp only [part_channel]
  rw [if_neg hout]

/-- The state reached by `part_channel` when the client occupies the key. -/
theorem part_fst_in (st : SrvState) (cid : Nat) (channel : String)
    (hin : strLower channel ∈ (st.sess cid).chans) :
    (part_channel st cid channel).1 =
      (let kLow := strLower channel
       let mem := memberSet st kLow
       let mem1 := if cid ∈ mem then mem.erase cid else mem
       let base :=
         { st with
           sess := fun c => if c = cid then
               { st.sess c with chans := (st.sess c).chans.erase kLow }
             else st.sess c
           chans := aupdate st.chans kLow mem1 }
       if mem1 = [] then
         { base with chans := aerase base.chans kLow
                     chanNames := aerase st.chanNames kLow }
       else base) := by
  simp only [part_channel]
  rw [if_pos hin]
  simp only [memberSet_setSess]
  split <;> split <;> rfl

/-- `join_channel` preserves the invariant. -/
theorem inv_join (st : SrvState) (cid : Nat) (hcid : cid < st.nextId)
    (channel : String) (h : Inv st) : Inv (join_channel st cid channel).1 := by
  rcases hopt : alookup st.chans (strLower channel) with _ | m0
  · -- the key is new: channel appended with member set [cid]
    rw [join_fst_new st cid channel hopt]
    have hnames : alookup st.chanNames (strLower channel) = none := by
      rcases hx : alookup st.chanNames (strLower channel) with _ | nm
      · rfl
      · have := h.keys_align (strLower channel)
        rw [hopt, hx] at this
        simp at this
    have hkeymem : strLower channel ∉ st.chans.map Prod.fst :=
      (alookup_eq_none_iff _ _).1 hopt
    have hnamemem : strLower channel ∉ st.chanNames.map Prod.fst :=
      (alookup_eq_none_iff _ _).1 hnames
    have hmemnil : memberSet st (strLower channel) = [] := by
      simp only [memberSet, hopt]
      rfl
    constructor
    · intro c k
      simp only
      by_cases hc : c = cid <;> by_cases hk2 : k = strLower channel
      · subst hc; subst hk2
        rw [if_pos rfl]
        simp only [memberSet, alookup_append_of_none _ hopt, Option.getD_some]
        simp [mem_pyAdd]
      · subst hc
        rw [if_pos rfl]
        simp only [memberSet,
          alookup_append_of_ne _ (fun hh => hk2 hh.symm)]
        rw [show (∀ b, b ∈ pyAdd (st.sess c).chans (strLower channel)
            ↔ b ∈ (st.sess c).chans ∨ b = strLower channel) from fun b => mem_pyAdd]
        rw [or_iff_left hk2]
        exact h.mem_iff c k
      · subst hk2
        rw [if_neg hc]
        simp only [memberSet, alookup_append_of_none _ hopt, Option.getD_some]
        have hl := h.mem_iff c (strLower channel)
        rw [hmemnil] at hl
        simp only [List.not_mem_nil, iff_false] at hl
        simp [hl, hc]
      · rw [if_neg hc]
        simp only [memberSet,
          alookup_append_of_ne _ (fun hh => hk2 hh.symm)]
        exact h.mem_iff c k
    · simp only [List.map_append, List.map_cons, List.map_nil]
      exact List.Nodup.append h.chanKeys_nodup (by simp)
        (fun a ha hb => by
          rcases List.mem_singleton.1 hb with rfl
          exact hkeymem ha)
    · simp only [List.map_append, List.map_cons, List.map_nil]
      exact List.Nodup.append h.nameKeys_nodup (by simp)
        (fun a ha hb => by
          rcases List.mem_singleton.1 hb with rfl
          exact hnamemem ha)
    · intro k
      by_cases hk2 : k = strLower channel
      · subst hk2
        rw [alookup_append_of_none _ hopt, alookup_append_of_none _ hnames]
        rfl
      · simp only [alookup_append_of_ne _ (fun hh => hk2 hh.symm)]
        exact h.keys_align k
    · intro k n hn
      by_cases hk2 : k = strLower channel
      · subst hk2
        rw [alookup_append_of_none _ hnames] at hn
        cases hn
        rfl
      · rw [alookup_append_of_ne _ (fun hh => hk2 hh.symm)] at hn
        exact h.canon_lower k n hn
    · intro c hc
      have hc2 : st.nextId ≤ c := hc
      simp only
      rw [if_neg (by omega)]
      exact h.fresh_hi c hc2
    · intro k m hm
      by_cases hk2 : k = strLower channel
      · subst hk2
        rw [alookup_append_of_none _ hopt] at hm
        cases hm
        exact Or.inl (by simp)
      · rw [alookup_append_of_ne _ (fun hh => hk2 hh.symm)] at hm
        exact h.seed_or_occupied k m hm
    · intro c
      simp only
      by_cases hc : c = cid
      · rw [if_pos hc]
        subst hc
        exact h.reg_iff c
      · rw [if_neg hc]
        exact h.reg_iff c
    · intro c
      simp only
      by_cases hc : c = cid
      · rw [if_pos hc]
        subst hc
        exact pyAdd_nodup (h.sessChans_nodup c) _
      · rw [if_neg hc]
        exact h.sessChans_nodup c
    · intro k m hm
      by_cases hk2 : k = strLower channel
      · subst hk2
        rw [alookup_append_of_none _ hopt] at hm
        cases hm
        simp
      · rw [alookup_append_of_ne _ (fun hh => hk2 hh.symm)] at hm
        exact h.members_nodup k m hm
    · intro c n hn
      simp only at hn
      by_cases hc : c = cid
      · rw [if_pos hc] at hn
        subst hc
        exact h.nick_noWs c n hn
      · rw [if_neg hc] at hn
        exact h.nick_noWs c n hn
  · -- the key exists: member set updated in place
    rw [join_fst_old st cid channel m0 hopt]
    have hms : memberSet st (strLower channel) = m0 := by
      simp only [memberSet, hopt]
      rfl
    have hlk : alookup (aupdate st.chans (strLower channel) (pyAdd m0 cid))
        (strLower channel) = some (pyAdd m0 cid) :=
      alookup_aupdate_self _ (by simp [hopt])
    constructor
    · intro c k
      simp only
      by_cases hc : c = cid <;> by_cases hk2 : k = strLower channel
      · subst hc; subst hk2
        rw [if_pos rfl]
        simp only [memberSet, hlk, Option.getD_some]
        simp [mem_pyAdd]
      · subst hc
        rw [if_pos rfl]
        simp only [memberSet, alookup_aupdate_ne _ hk2]
        rw [show (∀ b, b ∈ pyAdd (st.sess c).chans (strLower channel)
            ↔ b ∈ (st.sess c).chans ∨ b = strLower channel) from fun b => mem_pyAdd]
        rw [or_iff_left hk2]
        exact h.mem_iff c k
      · subst hk2
        rw [if_neg hc]
        simp only [memberSet, hlk, Option.getD_some]
        rw [show (∀ b, b ∈ pyAdd m0 cid ↔ b ∈ m0 ∨ b = cid) from fun b => mem_pyAdd]
        rw [or_iff_left hc]
        have := h.mem_iff c (strLower channel)
        rw [hms] at this
        exact this
      · rw [if_neg hc]
        simp only [memberSet, alookup_aupdate_ne _ hk2]
        exact h.mem_iff c k
    · rw [aupdate_keys]
      exact h.chanKeys_nodup
    · exact h.nameKeys_nodup
    · intro k
      by_cases hk2 : k = strLower channel
      · subst hk2
        rw [hlk]
        have := h.keys_align (strLower channel)
        rw [hopt] at this
        exact this
      · rw [alookup_aupdate_ne _ hk2]
        exact h.keys_align k
    · exact h.canon_lower
    · intro c hc
      have hc2 : st.nextId ≤ c := hc
      simp only
      rw [if_neg (by omega)]
      exact h.fresh_hi c hc2
    · intro k m hm
      by_cases hk2 : k = strLower channel
      · subst hk2
        rw [hlk] at hm
        cases hm
        exact Or.inl (pyAdd_ne_nil _ _)
      · rw [alookup_aupdate_ne _ hk2] at hm
        exact h.seed_or_occupied k m hm
    · intro c
      simp only
      by_cases hc : c = cid
      · rw [if_pos hc]
        subst hc
        exact h.reg_iff c
      · rw [if_neg hc]
        exact h.reg_iff c
    · intro c
      simp only
      by_cases hc : c = cid
      · rw [if_pos hc]
        subst hc
        exact pyAdd_nodup (h.sessChans_nodup c) _
      · rw [if_neg hc]
        exact h.sessChans_nodup c
    · intro k m hm
      by_cases hk2 : k = strLower channel
      · subst hk2
        rw [hlk] at hm
        cases hm
        exact pyAdd_nodup (h.members_nodup _ m0 hopt) cid
      · rw [alookup_aupdate_ne _ hk2] at hm
        exact h.members_nodup k m hm
    · intro c n hn
      simp only at hn
      by_cases hc : c = cid
      · rw [if_pos hc] at hn
        subst hc
        exact h.nick_noWs c n hn
      · rw [if_neg hc] at hn
        exact h.nick_noWs c n hn

/-- `part_channel` preserves the invariant. -/
theorem inv_part (st : SrvState) (cid : Nat) (hcid : cid < st.nextId)
    (channel : String) (h : Inv st) : Inv (part_channel st cid channel).1 := by
  by_cases hin : strLower channel ∈ (st.sess cid).chans
  · obtain ⟨m0, hm0⟩ : ∃ m, alookup st.chans (strLower channel) = some m := by
      have := (h.mem_iff cid (strLower channel)).1 hin
      rcases hx : alookup st.chans (strLower channel) with _ | m
      · rw [memberSet, hx] at this
        simp at this
      · exact ⟨m, rfl⟩
    have hms : memberSet st (strLower channel) = m0 := by
      simp only [memberSet, hm0]
      rfl
    have hcidm : cid ∈ m0 := by
      have := (h.mem_iff cid (strLower channel)).1 hin
      rwa [hms] at this
    have hm0nodup : m0.Nodup := h.members_nodup _ m0 hm0
    have hothers : ∀ c, c ≠ cid → (strLower channel ∈ (st.sess c).chans ↔ c ∈ m0.erase cid) := by
      intro c hc
      rw [List.mem_erase_of_ne hc, ← hms]
      exact h.mem_iff c (strLower channel)
    have hself : cid ∉ m0.erase cid := fun hmem =>
      (hm0nodup.mem_erase_iff.1 hmem).1 rfl
    rw [part_fst_in st cid channel hin]
    simp only
    rw [hms, if_pos hcidm]
    by_cases hnil : m0.erase cid = []
    · rw [if_pos hnil]
      have hlknone : ∀ k2, alookup (aerase (aupdate st.chans (strLower channel)
          (m0.erase cid)) (strLower channel)) k2
          = if k2 = strLower channel then none else alookup st.chans k2 := by
        intro k2
        by_cases hk2 : k2 = strLower channel
        · rw [if_pos hk2, hk2]
          exact alookup_aerase_self _ _
        · rw [if_neg hk2, alookup_aerase_ne hk2, alookup_aupdate_ne _ hk2]
      constructor
      · intro c k
        simp only
        by_cases hc : c = cid <;> by_cases hk2 : k = strLower channel
        · subst hc; subst hk2
          rw [if_pos rfl]
          simp only [memberSet, hlknone, if_pos rfl, Option.getD_none]
          constructor
          · intro hmem
            exact absurd rfl ((h.sessChans_nodup c).mem_erase_iff.1 hmem).1
          · intro hmem
            simp at hmem
        · subst hc
          rw [if_pos rfl]
          simp only [memberSet, hlknone, if_neg hk2]
          rw [List.mem_erase_of_ne hk2]
          exact h.mem_iff c k
        · subst hk2
          rw [if_neg hc]
          simp only [memberSet, hlknone, if_pos rfl, Option.getD_none]
          have := hothers c hc
          rw [hnil] at this
          simp only [List.not_mem_nil, iff_false] at this
          simp [this]
        · rw [if_neg hc]
          simp only [memberSet, hlknone, if_neg hk2]
          exact h.mem_iff c k
      · exact aerase_keys_nodup (by rw [aupdate_keys]; exact h.chanKeys_nodup) _
      · exact aerase_keys_nodup h.nameKeys_nodup _
      · intro k
        rw [hlknone k]
        by_cases hk2 : k = strLower channel
        · rw [if_pos hk2, hk2, alookup_aerase_self]
          rfl
        · rw [if_neg hk2, alookup_aerase_ne hk2]
          exact h.keys_align k
      · intro k n hn
        by_cases hk2 : k = strLower channel
        · rw [hk2, alookup_aerase_self] at hn
          cases hn
        · rw [alookup_aerase_ne hk2] at hn
          exact h.canon_lower k n hn
      · intro c hc
        have hc2 : st.nextId ≤ c := hc
        simp only
        rw [if_neg (by omega)]
        exact h.fresh_hi c hc2
      · intro k m hm
        rw [hlknone k] at hm
        by_cases hk2 : k = strLower channel
        · rw [if_pos hk2] at hm
          cases hm
        · rw [if_neg hk2] at hm
          exact h.seed_or_occupied k m hm
      · intro c
        simp only
        by_cases hc : c = cid
        · rw [if_pos hc]
          subst hc
          exact h.reg_iff c
        · rw [if_neg hc]
          exact h.reg_iff c
      · intro c
        simp only
        by_cases hc : c = cid
        · rw [if_pos hc]
          subst hc
          exact (h.sessChans_nodup c).erase _
        · rw [if_neg hc]
          exact h.sessChans_nodup c
      · intro k m hm
        rw [hlknone k] at hm
        by_cases hk2 : k = strLower channel
        · rw [if_pos hk2] at hm
          cases hm
        · rw [if_neg hk2] at hm
          exact h.members_nodup k m hm
      · intro c n hn
        simp only at hn
        by_cases hc : c = cid
        · rw [if_pos hc] at hn
          subst hc
          exact h.nick_noWs c n hn
        · rw [if_neg hc] at hn
          exact h.nick_noWs c n hn
    · rw [if_neg hnil]
      have hlk : alookup (aupdate st.chans (strLower channel) (m0.erase cid))
          (strLower channel) = some (m0.erase cid) :=
        alookup_aupdate_self _ (by simp [hm0])
      constructor
      · intro c k
        simp only
        by_cases hc : c = cid <;> by_cases hk2 : k = strLower channel
        · subst hc; subst hk2
          rw [if_pos rfl]
          simp only [memberSet, hlk, Option.getD_some]
          constructor
          · intro hmem
            exact absurd rfl ((h.sessChans_nodup c).mem_erase_iff.1 hmem).1
          · intro hmem
            exact absurd hmem hself
        · subst hc
          rw [if_pos rfl]
          simp only [memberSet, alookup_aupdate_ne _ hk2]
          rw [List.mem_erase_of_ne hk2]
          exact h.mem_iff c k
        · subst hk2
          rw [if_neg hc]
          simp only [memberSet, hlk, Option.getD_some]
          exact hothers c hc
        · rw [if_neg hc]
          simp only [memberSet, alookup_aupdate_ne _ hk2]
          exact h.mem_iff c k
      · rw [aupdate_keys]
        exact h.chanKeys_nodup
      · exact h.nameKeys_nodup
      · intro k
        by_cases hk2 : k = strLower channel
        · rw [hk2, hlk]
          have := h.keys_align (strLower channel)
          rw [hm0] at this
          exact this
        · rw [alookup_aupdate_ne _ hk2]
          exact h.keys_align k
      · exact h.canon_lower
      · intro c hc
        have hc2 : st.nextId ≤ c := hc
        simp only
        rw [if_neg (by omega)]
        exact h.fresh_hi c hc2
      · intro k m hm
        by_cases hk2 : k = strLower channel
        · rw [hk2, hlk] at hm
          cases hm
          exact Or.inl hnil
        · rw [alookup_aupdate_ne _ hk2] at hm
          exact h.seed_or_occupied k m hm
      · intro c
        simp only
        by_cases hc : c = cid
        · rw [if_pos hc]
          subst hc
          exact h.reg_iff c
        · rw [if_neg hc]
          exact h.reg_iff c
      · intro c
        simp only
        by_cases hc : c = cid
        · rw [if_pos hc]
          subst hc
          exact (h.sessChans_nodup c).erase _
        · rw [if_neg hc]
          exact h.sessChans_nodup c
      · intro k m hm
        by_cases hk2 : k = strLower channel
        · rw [hk2, hlk] at hm
          cases hm
          exact hm0nodup.erase _
        · rw [alookup_aupdate_ne _ hk2] at hm
          exact h.members_nodup k m hm
      · intro c n hn
        simp only at hn
        by_cases hc : c = cid
        · rw [if_pos hc] at hn
          subst hc
          exact h.nick_noWs c n hn
        · rw [if_neg hc] at hn
          exact h.nick_noWs c n hn
  · rw [part_noop st cid channel hin]
    exact h

theorem part_nextId (st : SrvState) (cid : Nat) (channel : String) :
    (part_channel st cid channel).1.nextId = st.nextId := by
  by_cases hin : strLower channel ∈ (st.sess cid).chans
  · rw [part_fst_in st cid channel hin]
    simp only
    split <;> split <;> rfl
  · rw [part_noop st cid channel hin]

/-- The channel-parting loop of `disconnect` preserves the invariant. -/
theorem inv_partAll (cid : Nat) : ∀ (ks : List String) (st : SrvState),
    Inv st → cid < st.nextId → Inv (partAll cid st ks).1 := by
  intro ks
  induction ks with
  | nil =>
      intro st h _
      exact h
  | cons k ks ih =>
      intro st h hcid
      simp only [partAll]
      exact ih _ (inv_part st cid hcid _ h)
        (by rw [part_nextId]; exact hcid)

/-- `disconnect` preserves the invariant. -/
theorem inv_disconnect (st : SrvState) (cid : Nat) (hcid : cid < st.nextId)
    (h : Inv st) : Inv (disconnect st cid).1 := by
  rw [disconnect]
  refine inv_partAll cid _ _ ?_ hcid
  exact {
    mem_iff := h.mem_iff
    chanKeys_nodup := h.chanKeys_nodup
    nameKeys_nodup := h.nameKeys_nodup
    keys_align := h.keys_align
    canon_lower := h.canon_lower
    fresh_hi := h.fresh_hi
    seed_or_occupied := h.seed_or_occupied
    reg_iff := h.reg_iff
    sessChans_nodup := h.sessChans_nodup
    members_nodup := h.members_nodup
    nick_noWs := h.nick_noWs }

theorem list_getD_mem {α : Type} : ∀ (l : List α) (n : Nat) (d : α),
    n < l.length → l.getD n d ∈ l
  | a :: l, 0, _, _ => List.mem_cons_self a l
  | a :: l, n + 1, d, hn =>
      List.mem_cons_of_mem a (list_getD_mem l n d (by simpa using hn))

/-- The dispatcher preserves the invariant, for any line whose tokens are
nonempty and whitespace-free (every `str.split()` output is). -/
theorem inv_dispatch (st : SrvState) (cid : Nat) (parts : List String)
    (hcid : cid < st.nextId)
    (htok : ∀ t ∈ parts, t ≠ "" ∧ ∀ ch ∈ t.data, ch.isWhitespace = false)
    (h : Inv st) : Inv (dispatch st cid parts).1 := by
  simp only [dispatch]
  by_cases h1 : parts = []
  · rw [if_pos h1]
    exact h
  rw [if_neg h1]
  by_cases h2 : strUpper (parts.getD 0 "") = "CAP" ∧ 1 < parts.length
  · rw [if_pos h2]
    split_ifs <;> exact h
  rw [if_neg h2]
  by_cases h3 : strUpper (parts.getD 0 "") = "NICK" ∧ 1 < parts.length
  · rw [if_pos h3]
    exact inv_nickCmd st cid hcid _
      (htok _ (list_getD_mem parts 1 "" h3.2)).1
      (htok _ (list_getD_mem parts 1 "" h3.2)).2 h
  rw [if_neg h3]
  by_cases h4 : strUpper (parts.getD 0 "") = "USER" ∧ 4 < parts.length
  · rw [if_pos h4]
    exact inv_userCmd st cid hcid _
      (htok _ (list_getD_mem parts 1 "" (by omega))).1 h
  rw [if_neg h4]
  by_cases h5 : strUpper (parts.getD 0 "") = "JOIN" ∧ 1 < parts.length
  · rw [if_pos h5]
    exact inv_join st cid hcid _ h
  rw [if_neg h5]
  by_cases h6 : strUpper (parts.getD 0 "") = "PART" ∧ 1 < parts.length
  · rw [if_pos h6]
    exact inv_part st cid hcid _ h
  rw [if_neg h6]
  by_cases h7 : strUpper (parts.getD 0 "") = "PRIVMSG" ∧ 2 < parts.length
  · rw [if_pos h7]
    split
    · split <;> exact h
    · exact h
  rw [if_neg h7]
  by_cases h8 : strUpper (parts.getD 0 "") = "PING"
  · rw [if_pos h8]
    split <;> exact h
  rw [if_neg h8]
  by_cases h9 : strUpper (parts.getD 0 "") = "QUIT"
  · rw [if_pos h9]
    exact inv_disconnect st cid hcid h
  rw [if_neg h9]
  by_cases h10 : strUpper (parts.getD 0 "") = "WHOIS" ∧ 1 < parts.length
  · rw [if_pos h10]
    exact h
  rw [if_neg h10]
  by_cases h11 : strUpper (parts.getD 0 "") = "LIST"
  · rw [if_pos h11]
    exact h
  rw [if_neg h11]
  by_cases h12 : strUpper (parts.getD 0 "") = "NAMES" ∧ 1 < parts.length
  · rw [if_pos h12]
    exact h
  rw [if_neg h12]
  exact h

/-- `handle_message` preserves the invariant. -/
theorem inv_handle (st : SrvState) (cid : Nat) (msg : String)
    (hcid : cid < st.nextId) (h : Inv st) : Inv (handle_message st cid msg).1 := by
  rw [handle_message]
  split
  · exact h
  · exact inv_dispatch st cid _ hcid
      (fun t ht => ⟨pySplit_token_ne_empty ht, pySplit_token_noWs ht⟩) h

/-- Every event step preserves the invariant. -/
theorem inv_stepOp (st : SrvState) (op : Op) (h : Inv st)
    (hok : opOK st op = true) : Inv (stepOp st op).1 := by
  cases op with
  | connect =>
      simp only [stepOp]
      have hfresh := h.fresh_hi st.nextId (le_refl _)
      constructor
      · intro c k
        simp only
        by_cases hc : c = st.nextId
        · rw [if_pos hc]
          subst hc
          have hmi := h.mem_iff st.nextId k
          rw [hfresh] at hmi
          simp only [freshSess, List.not_mem_nil, false_iff] at hmi
          simp only [freshSess, List.not_mem_nil, false_iff]
          exact hmi
        · rw [if_neg hc]
          exact h.mem_iff c k
      · exact h.chanKeys_nodup
      · exact h.nameKeys_nodup
      · exact h.keys_align
      · exact h.canon_lower
      · intro c hc
        have hc2 : st.nextId + 1 ≤ c := hc
        simp only
        rw [if_neg (by omega)]
        exact h.fresh_hi c (by omega)
      · exact h.seed_or_occupied
      · intro c
        simp only
        by_cases hc : c = st.nextId
        · rw [if_pos hc]
          rfl
        · rw [if_neg hc]
          exact h.reg_iff c
      · intro c
        simp only
        by_cases hc : c = st.nextId
        · rw [if_pos hc]
          exact List.nodup_nil
        · rw [if_neg hc]
          exact h.sessChans_nodup c
      · exact h.members_nodup
      · intro c n hn
        simp only at hn
        by_cases hc : c = st.nextId
        · rw [if_pos hc] at hn
          cases hn
        · rw [if_neg hc] at hn
          exact h.nick_noWs c n hn
  | line c m =>
      simp only [opOK, decide_eq_true_eq] at hok
      exact inv_handle st c m hok h
  | close c =>
      simp only [opOK, decide_eq_true_eq] at hok
      exact inv_disconnect st c hok h

theorem inv_runFrom : ∀ (ops : List Op) (st : SrvState),
    Inv st → validFrom st ops = true → Inv (runFrom st ops).1 := by
  intro ops
  induction ops with
  | nil =>
      intro st h _
      exact h
  | cons op ops ih =>
      intro st h hv
      simp only [validFrom, Bool.and_eq_true] at hv
      simp only [runFrom]
      exact ih _ (inv_stepOp st op h hv.1) hv.2

/-- Every reachable state satisfies the invariant. -/
theorem inv_reachable (s : SrvState) (hs : Reachable s) : Inv s := by
  obtain ⟨ops, hv, rfl⟩ := hs
  exact inv_runFrom ops initState inv_init hv

/-- Lookups at a key other than the parted one are untouched by
`part_channel`. -/
theorem part_lookup_other (st : SrvState) (cid : Nat) (ch k : String)
    (hne : k ≠ strLower ch) :
    alookup (part_channel st cid ch).1.chans k = alookup st.chans k
    ∧ alookup (part_channel st cid ch).1.chanNames k = alookup st.chanNames k := by
  by_cases hin : strLower ch ∈ (st.sess cid).chans
  · rw [part_fst_in st cid ch hin]
    simp only
    split
    all_goals split
    all_goals constructor
    all_goals first
      | (rw [alookup_aerase_ne hne, alookup_aupdate_ne _ hne])
      | (rw [alookup_aerase_ne hne])
      | (rw [alookup_aupdate_ne _ hne])
      | rfl
  · rw [part_noop st cid ch hin]
    exact ⟨rfl, rfl⟩

/-- The parting client's channel set after a real part is the old set with
the parted key erased. -/
theorem part_sess_self (st : SrvState) (cid : Nat) (ch : String)
    (hin : strLower ch ∈ (st.sess cid).chans) :
    ((part_channel st cid ch).1.sess cid).chans
      = (st.sess cid).chans.erase (strLower ch) := by
  rw [part_fst_in st cid ch hin]
  simp only
  split <;> split <;> simp

/-- Parting the last member deletes the channel and its display name. -/
theorem part_removes_last (st : SrvState) (cid : Nat) (ch : String)
    (hin : strLower ch ∈ (st.sess cid).chans)
    (hmem : memberSet st (strLower ch) = [cid]) :
    alookup (part_channel st cid ch).1.chans (strLower ch) = none
    ∧ alookup (part_channel st cid ch).1.chanNames (strLower ch) = none := by
  rw [part_fst_in st cid ch hin]
  simp only
  rw [hmem, if_pos (List.mem_singleton_self cid),
    show ([cid] : List Nat).erase cid = [] from by simp, if_pos rfl]
  exact ⟨alookup_aerase_self _ _, alookup_aerase_self _ _⟩

/-- Once a key is absent from both registries, the parting loop of
`disconnect` never brings it back. -/
theorem partAll_none_preserved (cid : Nat) : ∀ (ks : List String) (st : SrvState)
    (k : String), Inv st → cid < st.nextId →
    alookup st.chans k = none → alookup st.chanNames k = none →
    alookup (partAll cid st ks).1.chans k = none
    ∧ alookup (partAll cid st ks).1.chanNames k = none := by
  intro ks
  induction ks with
  | nil =>
      intro st k _ _ hc hn
      exact ⟨hc, hn⟩
  | cons k1 ks ih =>
      intro st k h hcid hc hn
      simp only [partAll]
      by_cases hin : strLower ((alookup st.chanNames k1).getD k1) ∈ (st.sess cid).chans
      · have hkne : k ≠ strLower ((alookup st.chanNames k1).getD k1) := by
          intro hkeq
          have hmm := (h.mem_iff cid _).1 hin
          rcases hx : alookup st.chans (strLower ((alookup st.chanNames k1).getD k1))
            with _ | m
          · rw [memberSet, hx] at hmm
            simp at hmm
          · rw [hkeq, hx] at hc
            cases hc
        obtain ⟨hc1, hn1⟩ := part_lookup_other st cid _ k hkne
        exact ih _ k (inv_part st cid hcid _ h)
          (by rw [part_nextId]; exact hcid) (hc1.trans hc) (hn1.trans hn)
      · rw [part_noop st cid _ hin]
        exact ih st k h hcid hc hn

/-- The parting loop of `disconnect` removes from the registries every
channel whose only member is the disconnecting client. -/
theorem partAll_removes (cid : Nat) : ∀ (ks : List String) (st : SrvState)
    (k : String), Inv st → cid < st.nextId → ks.Nodup →
    (∀ k2 ∈ ks, k2 ∈ (st.sess cid).chans) →
    k ∈ ks → memberSet st k = [cid] →
    alookup (partAll cid st ks).1.chans k = none
    ∧ alookup (partAll cid st ks).1.chanNames k = none := by
  intro ks
  induction ks with
  | nil =>
      intro st k _ _ _ _ hk _
      cases hk
  | cons k1 ks ih =>
      intro st k h hcid hnodup hsub hk hmem
      simp only [partAll]
      have hk1in : k1 ∈ (st.sess cid).chans := hsub k1 (List.mem_cons_self _ _)
      obtain ⟨m1, hm1⟩ : ∃ m, alookup st.chans k1 = some m := by
        have hmm := (h.mem_iff cid k1).1 hk1in
        rcases hx : alookup st.chans k1 with _ | m
        · rw [memberSet, hx] at hmm
          simp at hmm
        · exact ⟨m, rfl⟩
      obtain ⟨nm, hnm⟩ : ∃ nm, alookup st.chanNames k1 = some nm := by
        have hal := h.keys_align k1
        rw [hm1] at hal
        rcases hx : alookup st.chanNames k1 with _ | nm
        · rw [hx] at hal
          simp at hal
        · exact ⟨nm, rfl⟩
      have hcanon : (alookup st.chanNames k1).getD k1 = nm := by
        rw [hnm]
        rfl
      have hlow : strLower nm = k1 := h.canon_lower k1 nm hnm
      rw [hcanon]
      rcases List.mem_cons.1 hk with rfl | hkrest
      · have hin2 : strLower nm ∈ (st.sess cid).chans := by
          rw [hlow]
          exact hk1in
        have hrm := part_removes_last st cid nm hin2 (by rw [hlow]; exact hmem)
        rw [hlow] at hrm
        exact partAll_none_preserved cid ks _ k
          (inv_part st cid hcid nm h)
          (by rw [part_nextId]; exact hcid) hrm.1 hrm.2
      · have hkne : k ≠ k1 := by
          intro hh
          exact (List.nodup_cons.1 hnodup).1 (hh ▸ hkrest)
        have hother := part_lookup_other st cid nm k (by rw [hlow]; exact hkne)
        refine ih _ k (inv_part st cid hcid nm h)
          (by rw [part_nextId]; exact hcid)
          (List.nodup_cons.1 hnodup).2 ?_ hkrest ?_
        · intro k2 hk2
          have hk2in := hsub k2 (List.mem_cons_of_mem _ hk2)
          have hk2ne : k2 ≠ k1 := by
            intro hh
            exact (List.nodup_cons.1 hnodup).1 (hh ▸ hk2)
          rw [part_sess_self st cid nm (by rw [hlow]; exact hk1in), hlow]
          exact (List.mem_erase_of_ne hk2ne).2 hk2in
        · have hmm : memberSet (part_channel st cid nm).1 k = memberSet st k := by
            rw [memberSet, memberSet, hother.1]
          rw [hmm]
          exact hmem

/-- The reply to a bare `LIST` line: one 322 entry per stored channel, in
dict order, then the 323 end marker; the state is unchanged. -/
theorem handle_LIST (st : SrvState) (c2 : Nat) :
    handle_message st c2 "LIST"
      = (st, (st.chans.map fun kv =>
              (c2, numericLine "322" (optNick ((st.sess c2).nick))
                ((alookup st.chanNames kv.1).getD kv.1 ++ " "
                  ++ toString kv.2.length ++ " :Development Channel")))
           ++ [(c2, numericLine "323" (optNick ((st.sess c2).nick)) ":End of LIST")]) := by
  rw [handle_message, if_neg (by decide),
    show pySplit "LIST" = ["LIST"] from by decide,
    dispatch_list st c2 "LIST" [] (by decide)]

theorem str_data_inj {s t : String} (h : s.data = t.data) : s = t := by
  cases s
  cases t
  cases h
  rfl

/-- Splitting consumes a whitespace-free chunk into the accumulator. -/
theorem pyWordsAux_chunk : ∀ (w cs acc : List Char),
    (∀ c ∈ w, c.isWhitespace = false) →
    pyWordsAux (w ++ cs) acc = pyWordsAux cs (w.reverse ++ acc) := by
  intro w
  induction w with
  | nil =>
      intro cs acc _
      simp
  | cons c w ih =>
      intro cs acc hno
      have hc : c.isWhitespace = false := hno c (List.mem_cons_self _ _)
      simp only [List.cons_append, pyWordsAux, hc, Bool.false_eq_true, if_false]
      refine (ih cs (c :: acc) fun d hd => hno d (List.mem_cons_of_mem _ hd)).trans ?_
      simp [List.append_assoc]

theorem joinChars_cons_cons (a b : List Char) (l : List (List Char)) :
    joinChars (a :: b :: l) = a ++ ' ' :: joinChars (b :: l) := rfl

/-- `str.split()` inverts single-space joining of nonempty whitespace-free
words. -/
theorem pyWords_join : ∀ (ws : List (List Char)),
    (∀ w ∈ ws, w ≠ [] ∧ ∀ c ∈ w, c.isWhitespace = false) →
    pyWordsAux (joinChars ws) [] = ws := by
  intro ws
  induction ws with
  | nil =>
      intro _
      rfl
  | cons w tl ih =>
      intro hws
      obtain ⟨hw1, hw2⟩ := hws w (List.mem_cons_self _ _)
      cases tl with
      | nil =>
          show pyWordsAux w [] = [w]
          calc pyWordsAux w []
              = pyWordsAux (w ++ []) [] := by rw [List.append_nil]
            _ = pyWordsAux [] (w.reverse ++ []) := pyWordsAux_chunk w [] [] hw2
            _ = [w] := by
                simp only [pyWordsAux, List.append_nil]
                rw [if_neg (by simpa using hw1)]
                rw [List.reverse_reverse]
      | cons w2 tl2 =>
          rw [joinChars_cons_cons,
            pyWordsAux_chunk w (' ' :: joinChars (w2 :: tl2)) [] hw2]
          have hsp : (' ' : Char).isWhitespace = true := by decide
          simp only [pyWordsAux, hsp, if_true, List.append_nil]
          rw [if_neg (by simpa using hw1), List.reverse_reverse]
          exact congrArg (List.cons w) (ih fun x hx => hws x (List.mem_cons_of_mem _ hx))

/-- `str.split()` inverts `" ".join` on nonempty whitespace-free tokens. -/
theorem pySplit_spaceJoin (ts : List String)
    (h : ∀ t ∈ ts, t ≠ "" ∧ ∀ c ∈ t.data, c.isWhitespace = false) :
    pySplit (spaceJoin ts) = ts := by
  rw [pySplit, spaceJoin]
  show ((pyWordsAux (joinChars (ts.map String.data)) []).map fun w => (⟨w⟩ : String)) = ts
  rw [pyWords_join (ts.map String.data) ?side]
  case side =>
    intro w hw
    rcases List.mem_map.1 hw with ⟨t, ht, rfl⟩
    obtain ⟨h1, h2⟩ := h t ht
    refine ⟨?_, h2⟩
    intro hc
    apply h1
    cases t
    cases hc
    rfl
  rw [List.map_map]
  have hid : ∀ t : String, ((fun w => (⟨w⟩ : String)) ∘ String.data) t = t :=
    fun t => rfl
  calc ts.map ((fun w => (⟨w⟩ : String)) ∘ String.data)
      = ts.map id := List.map_congr_left fun t _ => hid t
    _ = ts := List.map_id ts

/-- If the first character of the tail is not a colon, `lstrip(":")` strips
exactly the marker colon from a single-space-joined trailing argument. -/
theorem lstrip_colon_spaceJoin (t0 : String) (ts : List String)
    (h1 : t0 ≠ "") (hcolon : lstripColon t0 = t0) :
    lstripColon (spaceJoin ((":" ++ t0) :: ts)) = spaceJoin (t0 :: ts) := by
  obtain ⟨c, rest, hdata⟩ : ∃ c rest, t0.data = c :: rest := by
    rcases hx : t0.data with _ | ⟨c, rest⟩
    · exfalso
      apply h1
      cases t0
      cases hx
      rfl
    · exact ⟨c, rest, rfl⟩
  have hcne : (c == ':') = false := by
    by_cases hcc : (c == ':') = true
    · exfalso
      have hd := congrArg String.data hcolon
      rw [show (lstripColon t0).data = t0.data.dropWhile (· == ':') from rfl,
        hdata, List.dropWhile_cons, if_pos hcc] at hd
      have hlen := congrArg List.length hd
      have hle := (List.dropWhile_sublist (l := rest) (· == ':')).length_le
      simp at hlen
      omega
    · simpa using hcc
  have hjoin : (spaceJoin ((":" ++ t0) :: ts)).data
      = ':' :: joinChars (t0.data :: ts.map String.data) := by
    show joinChars ((":" ++ t0).data :: ts.map String.data) = _
    rw [String.data_append]
    cases ts.map String.data with
    | nil => rfl
    | cons b l => rfl
  obtain ⟨tail2, htail⟩ : ∃ tail2,
      joinChars (t0.data :: ts.map String.data) = c :: tail2 := by
    cases ts.map String.data with
    | nil => exact ⟨rest, by rw [show joinChars [t0.data] = t0.data from rfl, hdata]⟩
    | cons b l =>
        refine ⟨rest ++ ' ' :: joinChars (b :: l), ?_⟩
        rw [joinChars_cons_cons, hdata]
        rfl
  apply str_data_inj
  show (spaceJoin ((":" ++ t0) :: ts)).data.dropWhile (· == ':')
      = joinChars ((t0 :: ts).map String.data)
  rw [hjoin, List.dropWhile_cons, if_pos (by decide), List.map_cons, htail,
    List.dropWhile_cons, if_neg (by simp [hcne])]

/-! ### Classification of emitted lines for the welcome-burst count -/

theorem is001_numericLine (num t m : String) (hlen : num.data.length = 3) :
    is001 (numericLine num t m) = (num.data == "001".data) := by
  have hdata : (numericLine num t m).data
      = ":irc.local ".data ++ (num.data ++ ([' '] ++ (t.data ++ ([' '] ++ m.data)))) := by
    simp [numericLine, String.data_append, List.append_assoc]
  rw [is001, hdata]
  rw [List.take_append_eq_append_take,
    List.take_all_of_le (l := ":irc.local ".data) (by decide),
    show (15 - (":irc.local ".data).length) = 4 from by decide,
    List.take_append_eq_append_take,
    List.take_all_of_le (l := num.data) (by omega), hlen,
    show ((4 : Nat) - 3) = 1 from rfl,
    show List.take 1 ([' '] ++ (t.data ++ ([' '] ++ m.data))) = [' '] from rfl]
  by_cases hb : (num.data == "001".data) = true
  · have hq := eq_of_beq hb
    rw [hq]
    decide
  · have hbf : (num.data == "001".data) = false := by
      simpa using hb
    rw [hbf]
    rw [beq_eq_false_iff_ne]
    intro hc
    have h1 : (":irc.local ".data ++ num.data) ++ [' ']
        = (":irc.local ".data ++ "001".data) ++ [' '] := by
      rw [List.append_assoc, hc]
      decide
    have h2 := List.append_cancel_right h1
    have h3 := List.append_cancel_left h2
    exact absurd h3 ((beq_eq_false_iff_ne).1 hbf)

theorem is001_fromNick (n cmd rest : String)
    (hno : ∀ c ∈ n.data, c.isWhitespace = false) :
    is001 (fromNick n cmd rest) = false := by
  rcases hb : is001 (fromNick n cmd rest) with _ | _
  · rfl
  exfalso
  have hdata : (fromNick n cmd rest).data
      = ':' :: (n.data ++ ("!~user@localhost ".data
          ++ (cmd.data ++ ([' '] ++ rest.data)))) := by
    simp [fromNick, String.data_append, List.append_assoc]
  rw [is001, hdata] at hb
  have heq := eq_of_beq hb
  rw [show (15 : Nat) = 14 + 1 from rfl, List.take_succ_cons] at heq
  have htail : List.take 14 (n.data ++ ("!~user@localhost ".data
      ++ (cmd.data ++ ([' '] ++ rest.data)))) = "irc.local 001 ".data := by
    have := congrArg List.tail heq
    simpa using this
  have h9 : (n.data ++ ("!~user@localhost ".data
      ++ (cmd.data ++ ([' '] ++ rest.data)))).get? 9 = some ' ' := by
    have hcast := congrArg (fun l => l.get? 9) htail
    simp only at hcast
    rw [List.get?_take (by omega)] at hcast
    rw [hcast]
    decide
  by_cases hlen : 9 < n.data.length
  · rw [List.get?_append hlen] at h9
    have hmem : ' ' ∈ n.data := List.get?_mem h9
    have := hno ' ' hmem
    exact absurd this (by decide)
  · push_neg at hlen
    rw [List.get?_append_right hlen] at h9
    have hjle : 9 - n.data.length ≤ 9 := Nat.sub_le 9 _
    rw [@List.get?_append Char "!~user@localhost ".data _ _ (by
      have hB : ("!~user@localhost ".data).length = 17 := by decide
      omega)] at h9
    generalize hj : 9 - n.data.length = j at h9 hjle
    interval_cases j <;> exact absurd h9 (by decide)

theorem is001_head_ne (s : String) (c : Char) (l : List Char)
    (h : s.data = c :: l) (hc : (c == ':') = false) : is001 s = false := by
  rw [is001, h, show (":irc.local 001 ".data)
      = ':' :: "irc.local 001 ".data from rfl,
    show (15 : Nat) = 14 + 1 from rfl, List.take_succ_cons,
    List.cons_beq_cons]
  simp [hc]

theorem burstCount_nil (c : Nat) : burstCount [] c = 0 := rfl

theorem burstCount_append (a b : List (Nat × String)) (c : Nat) :
    burstCount (a ++ b) c = burstCount a c + burstCount b c := by
  simp [burstCount, List.filter_append]

/-- Output blocks containing no 001 line contribute nothing to the count. -/
theorem burstCount_pairs (out : List (Nat × String)) (c : Nat)
    (h : ∀ q ∈ out, is001 q.2 = false) : burstCount out c = 0 := by
  rw [burstCount]
  rw [List.filter_eq_nil.2]
  · rfl
  · intro q hq
    rw [h q hq]
    simp

/-- The nickname rendered into relayed lines is always whitespace-free. -/
theorem optNick_noWs (o : Option String)
    (h : ∀ n, o = some n → ∀ c ∈ n.data, c.isWhitespace = false) :
    ∀ c ∈ (optNick o).data, c.isWhitespace = false := by
  cases o with
  | none => decide
  | some n => exact h n rfl

/-- The welcome burst contains exactly one 001 line, addressed to its
recipient. -/
theorem burstCount_welcome_block (n : String) (cid c : Nat) :
    burstCount ((welcomeBurst n).map fun l => (cid, l)) c
      = if cid == c then 1 else 0 := by
  have h001 : is001 (numericLine "001" n ":Welcome to the Hackerbot IRC Server") = true := by
    rw [is001_numericLine _ _ _ (by decide)]
    decide
  have hrest : ∀ num m, num.data.length = 3 → (num.data == "001".data) = false →
      is001 (numericLine num n m) = false := by
    intro num m hl hne
    rw [is001_numericLine _ _ _ hl, hne]
  simp only [welcomeBurst, List.map_cons, List.map_nil, burstCount, List.filter]
  rw [h001, hrest "002" _ (by decide) (by decide), hrest "003" _ (by decide) (by decide),
    hrest "004" _ (by decide) (by decide), hrest "251" _ (by decide) (by decide),
    hrest "255" _ (by decide) (by decide), hrest "372" _ (by decide) (by decide),
    hrest "376" _ (by decide) (by decide)]
  by_cases hc : cid == c <;> simp [hc]

/-! ### Registration is untouched by channel traffic -/

theorem join_sess_reg (st : SrvState) (cid : Nat) (ch : String) (c : Nat) :
    ((join_channel st cid ch).1.sess c).registered = (st.sess c).registered := by
  rcases hopt : alookup st.chans (strLower ch) with _ | m0
  · rw [join_fst_new st cid ch hopt]
    simp only
    by_cases hc : c = cid <;> simp [hc]
  · rw [join_fst_old st cid ch m0 hopt]
    simp only
    by_cases hc : c = cid <;> simp [hc]

theorem part_sess_reg (st : SrvState) (cid : Nat) (ch : String) (c : Nat) :
    ((part_channel st cid ch).1.sess c).registered = (st.sess c).registered := by
  by_cases hin : strLower ch ∈ (st.sess cid).chans
  · rw [part_fst_in st cid ch hin]
    simp only
    split <;> split <;> (by_cases hc : c = cid <;> simp [hc])
  · rw [part_noop st cid ch hin]

theorem partAll_sess_reg (cid : Nat) : ∀ (ks : List String) (st : SrvState) (c : Nat),
    ((partAll cid st ks).1.sess c).registered = (st.sess c).registered := by
  intro ks
  induction ks with
  | nil =>
      intro st c
      rfl
  | cons k ks ih =>
      intro st c
      simp only [partAll]
      rw [ih, part_sess_reg]

theorem disconnect_sess_reg (st : SrvState) (cid c : Nat) :
    ((disconnect st cid).1.sess c).registered = (st.sess c).registered := by
  rw [disconnect]
  exact partAll_sess_reg cid _ _ c

/-! ### No branch but `welcome` emits a 001 line -/

theorem inv_erase_clients (st : SrvState) (h : Inv st) (cid : Nat) :
    Inv { st with clients := st.clients.erase cid } :=
  { mem_iff := h.mem_iff, chanKeys_nodup := h.chanKeys_nodup
    nameKeys_nodup := h.nameKeys_nodup, keys_align := h.keys_align
    canon_lower := h.canon_lower, fresh_hi := h.fresh_hi
    seed_or_occupied := h.seed_or_occupied, reg_iff := h.reg_iff
    sessChans_nodup := h.sessChans_nodup, members_nodup := h.members_nodup
    nick_noWs := h.nick_noWs }

theorem part_out_no001 (st : SrvState) (cid : Nat) (ch : String) (c : Nat)
    (hnick : ∀ d ∈ (optNick ((st.sess cid).nick)).data, d.isWhitespace = false) :
    burstCount (part_channel st cid ch).2 c = 0 := by
  by_cases hin : strLower ch ∈ (st.sess cid).chans
  · simp only [part_channel]
    rw [if_pos hin]
    apply burstCount_pairs
    intro q hq
    rcases List.mem_cons.1 hq with rfl | hq
    · exact is001_fromNick _ _ _ hnick
    · rcases List.mem_map.1 hq with ⟨x, _, rfl⟩
      exact is001_fromNick _ _ _ hnick
  · rw [part_noop st cid ch hin]
    rfl

theorem partAll_out_no001 (cid : Nat) : ∀ (ks : List String) (st : SrvState) (c : Nat),
    Inv st → cid < st.nextId → burstCount (partAll cid st ks).2 c = 0 := by
  intro ks
  induction ks with
  | nil =>
      intro st c _ _
      rfl
  | cons k ks ih =>
      intro st c h hcid
      simp only [partAll]
      rw [burstCount_append,
        part_out_no001 st cid _ c (optNick_noWs _ (h.nick_noWs cid)),
        ih _ c (inv_part st cid hcid _ h) (by rw [part_nextId]; exact hcid)]

theorem disconnect_out_no001 (st : SrvState) (cid c : Nat) (h : Inv st)
    (hcid : cid < st.nextId) : burstCount (disconnect st cid).2 c = 0 := by
  rw [disconnect]
  exact partAll_out_no001 cid _ _ c (inv_erase_clients st h cid) hcid

theorem join_out_no001 (st : SrvState) (cid : Nat) (ch : String) (c : Nat)
    (hnick : ∀ d ∈ (optNick ((st.sess cid).nick)).data, d.isWhitespace = false) :
    burstCount (join_channel st cid ch).2 c = 0 := by
  simp only [join_channel]
  apply burstCount_pairs
  intro q hq
  rcases List.mem_append.1 hq with hq | hq
  · rcases List.mem_cons.1 hq with rfl | hq
    · exact is001_fromNick _ _ _ hnick
    rcases List.mem_cons.1 hq with rfl | hq
    · rw [is001_numericLine _ _ _ (by decide)]
      decide
    rcases List.mem_cons.1 hq with rfl | hq
    · rw [is001_numericLine _ _ _ (by decide)]
      decide
    rcases List.mem_cons.1 hq with rfl | hq
    · rw [is001_numericLine _ _ _ (by decide)]
      decide
    · simp at hq
  · rcases List.mem_map.1 hq with ⟨x, _, rfl⟩
    exact is001_fromNick _ _ _ hnick

theorem burstCount_single (c2 : Nat) (L : String) (c : Nat) (h : is001 L = false) :
    burstCount [(c2, L)] c = 0 :=
  burstCount_pairs _ _ (by
    intro q hq
    rcases List.mem_singleton.1 hq with rfl
    exact h)

/-- `welcome` emits a 001 line to its client exactly when the registered
flag flips from false to true. -/
theorem burst_welcome (st1 : SrvState) (cid c : Nat) :
    burstCount (welcome st1 cid).2 c
      + (if (st1.sess c).registered = true then 1 else 0)
      = (if ((welcome st1 cid).1.sess c).registered = true then 1 else 0) := by
  rw [welcome]
  by_cases hcond : (truthy (st1.sess cid).nick && truthy (st1.sess cid).user
      && !(st1.sess cid).registered) = true
  · rw [if_pos hcond]
    simp only
    rw [burstCount_welcome_block]
    have hregf : (st1.sess cid).registered = false := by
      have h2 := Bool.and_elim_right hcond
      simpa using h2
    by_cases hc : c = cid
    · subst hc
      rw [setSess_sess_self]
      simp [hregf]
    · rw [setSess_sess_ne _ _ _ hc]
      have hbc : (cid == c) = false := beq_eq_false_iff_ne.2 fun hh => hc hh.symm
      simp [hbc]
  · rw [if_neg hcond]
    simp [burstCount_nil]

/-- Along one dispatched line, the number of 001 lines sent to a client
equals the change of its registered flag: a burst appears exactly at the
false-to-true flip. -/
theorem burst_dispatch (st : SrvState) (cid : Nat) (parts : List String) (c : Nat)
    (h : Inv st) (hcid : cid < st.nextId) :
    burstCount (dispatch st cid parts).2 c
      + (if (st.sess c).registered = true then 1 else 0)
      = (if ((dispatch st cid parts).1.sess c).registered = true then 1 else 0) := by
  simp only [dispatch]
  by_cases h1 : parts = []
  · rw [if_pos h1]
    simp [burstCount_nil]
  rw [if_neg h1]
  by_cases h2 : strUpper (parts.getD 0 "") = "CAP" ∧ 1 < parts.length
  · rw [if_pos h2]
    split_ifs <;>
      simp [burstCount_nil,
        burstCount_single _ "CAP * LS :" _ (by decide),
        burstCount_single _ "CAP * ACK :" _ (by decide)]
  rw [if_neg h2]
  by_cases h3 : strUpper (parts.getD 0 "") = "NICK" ∧ 1 < parts.length
  · rw [if_pos h3]
    have hw := burst_welcome
      (setSess st cid fun s => { s with nick := some (parts.getD 1 "") }) cid c
    have hmid : ((setSess st cid fun s =>
        { s with nick := some (parts.getD 1 "") }).sess c).registered
        = (st.sess c).registered := by
      by_cases hc : c = cid <;> simp [setSess, hc]
    rw [hmid] at hw
    exact hw
  rw [if_neg h3]
  by_cases h4 : strUpper (parts.getD 0 "") = "USER" ∧ 4 < parts.length
  · rw [if_pos h4]
    have hw := burst_welcome
      (setSess st cid fun s => { s with user := some (parts.getD 1 "") }) cid c
    have hmid : ((setSess st cid fun s =>
        { s with user := some (parts.getD 1 "") }).sess c).registered
        = (st.sess c).registered := by
      by_cases hc : c = cid <;> simp [setSess, hc]
    rw [hmid] at hw
    exact hw
  rw [if_neg h4]
  by_cases h5 : strUpper (parts.getD 0 "") = "JOIN" ∧ 1 < parts.length
  · rw [if_pos h5]
    rw [join_out_no001 st cid _ c (optNick_noWs _ (h.nick_noWs cid)), join_sess_reg]
    simp
  rw [if_neg h5]
  by_cases h6 : strUpper (parts.getD 0 "") = "PART" ∧ 1 < parts.length
  · rw [if_pos h6]
    rw [part_out_no001 st cid _ c (optNick_noWs _ (h.nick_noWs cid)), part_sess_reg]
    simp
  rw [if_neg h6]
  by_cases h7 : strUpper (parts.getD 0 "") = "PRIVMSG" ∧ 2 < parts.length
  · rw [if_pos h7]
    by_cases hsh : startsHash (parts.getD 1 "") = true
    · rw [if_pos hsh]
      split
      · rw [burstCount_pairs _ _ (by
          intro q hq
          rcases List.mem_map.1 hq with ⟨x, _, rfl⟩
          exact is001_fromNick _ _ _ (optNick_noWs _ (h.nick_noWs cid)))]
        simp
      · rw [burstCount_single _ _ _ (by
          rw [is001_numericLine _ _ _ (by decide)]
          decide)]
        simp
    · rw [if_neg hsh]
      rw [burstCount_single _ _ _ (by
        rw [is001_numericLine _ _ _ (by decide)]
        decide)]
      simp
  rw [if_neg h7]
  by_cases h8 : strUpper (parts.getD 0 "") = "PING"
  · rw [if_pos h8]
    split
    · rw [burstCount_single _ _ _ (is001_head_ne _ 'P'
        ("ONG :".data ++ (parts.getD 1 "").data)
        (by rw [String.data_append,
              show ("PONG :".data) = 'P' :: "ONG :".data from by decide]
            exact List.cons_append 'P' "ONG :".data (parts.getD 1 "").data)
        (by decide))]
      simp
    · rw [burstCount_single _ _ _ (by decide)]
      simp
  rw [if_neg h8]
  by_cases h9 : strUpper (parts.getD 0 "") = "QUIT"
  · rw [if_pos h9]
    rw [disconnect_out_no001 st cid c h hcid, disconnect_sess_reg]
    simp
  rw [if_neg h9]
  by_cases h10 : strUpper (parts.getD 0 "") = "WHOIS" ∧ 1 < parts.length
  · rw [if_pos h10]
    rw [burstCount_pairs _ _ (by
      intro q hq
      rcases List.mem_cons.1 hq with rfl | hq
      · rw [is001_numericLine _ _ _ (by decide)]
        decide
      rcases List.mem_cons.1 hq with rfl | hq
      · rw [is001_numericLine _ _ _ (by decide)]
        decide
      rcases List.mem_cons.1 hq with rfl | hq
      · rw [is001_numericLine _ _ _ (by decide)]
        decide
      · simp at hq)]
    simp
  rw [if_neg h10]
  by_cases h11 : strUpper (parts.getD 0 "") = "LIST"
  · rw [if_pos h11]
    rw [burstCount_pairs _ _ (by
      intro q hq
      rcases List.mem_append.1 hq with hq | hq
      · rcases List.mem_map.1 hq with ⟨kv, _, rfl⟩
        rw [is001_numericLine _ _ _ (by decide)]
        decide
      · rcases List.mem_singleton.1 hq with rfl
        rw [is001_numericLine _ _ _ (by decide)]
        decide)]
    simp
  rw [if_neg h11]
  by_cases h12 : strUpper (parts.getD 0 "") = "NAMES" ∧ 1 < parts.length
  · rw [if_pos h12]
    rw [burstCount_pairs _ _ (by
      intro q hq
      rcases List.mem_append.1 hq with hq | hq
      · split at hq
        · rcases List.mem_singleton.1 hq with rfl
          rw [is001_numericLine _ _ _ (by decide)]
          decide
        · simp at hq
      · rcases List.mem_singleton.1 hq with rfl
        rw [is001_numericLine _ _ _ (by decide)]
        decide)]
    simp
  rw [if_neg h12]
  simp [burstCount_nil]

/-- One event step emits a 001 line to a client exactly at the
false-to-true flip of its registered flag. -/
theorem burst_step (st : SrvState) (op : Op) (c : Nat) (h : Inv st)
    (hok : opOK st op = true) :
    burstCount (stepOp st op).2 c
      + (if (st.sess c).registered = true then 1 else 0)
      = (if ((stepOp st op).1.sess c).registered = true then 1 else 0) := by
  cases op with
  | connect =>
      simp only [stepOp]
      rw [burstCount_nil, Nat.zero_add]
      by_cases hc : c = st.nextId
      · subst hc
        have hf := h.fresh_hi st.nextId (le_refl _)
        simp [hf, freshSess]
      · simp [hc]
  | line c2 m =>
      simp only [stepOp, handle_message]
      split
      · simp [burstCount_nil]
      · exact burst_dispatch st c2 _ c h (by simpa [opOK] using hok)
  | close c2 =>
      simp only [stepOp]
      rw [disconnect_out_no001 st c2 c h (by simpa [opOK] using hok)]
      simp only [disconnect_sess_reg]
      simp

/-- Along a valid run, the number of 001 lines a client has received plus
its initial registered bit equals its final registered bit. -/
theorem burst_trace : ∀ (ops : List Op) (st : SrvState) (c : Nat), Inv st →
    validFrom st ops = true →
    burstCount (runFrom st ops).2 c
      + (if (st.sess c).registered = true then 1 else 0)
      = (if ((runFrom st ops).1.sess c).registered = true then 1 else 0) := by
  intro ops
  induction ops with
  | nil =>
      intro st c _ _
      simp [burstCount_nil, runFrom]
  | cons op ops ih =>
      intro st c h hv
      simp only [validFrom, Bool.and_eq_true] at hv
      simp only [runFrom]
      rw [burstCount_append]
      have hs := burst_step st op c h hv.1
      have ht := ih (stepOp st op).1 c (inv_stepOp st op h hv.1) hv.2
      omega

/-! ### Claim theorems -/

/-- C1: bidirectional membership consistency — in every reachable state
(thus after every sequence of JOIN, PART, PRIVMSG and disconnect events),
for every client `c` and channel key `k`, `k` is in `c`'s channel-key set
iff `c` is in the member set of the registry's channel for `k`. -/
theorem C1_bidirectional_membership (s : SrvState) (hs : Reachable s) :
    ∀ c k, k ∈ (s.sess c).chans ↔ c ∈ memberSet s k :=
  (inv_reachable s hs).mem_iff

theorem C1_bidirectional_membership_witness :
    "#test" ∈ (((runFrom initState [Op.connect, Op.line 0 "JOIN #Test"]).1).sess 0).chans
      ↔ 0 ∈ memberSet (runFrom initState [Op.connect, Op.line 0 "JOIN #Test"]).1 "#test" :=
  C1_bidirectional_membership _
    ⟨[Op.connect, Op.line 0 "JOIN #Test"], by decide, rfl⟩ 0 "#test"

/-- C2 (counterexample): the claim "a channel key is present in the channel
map iff that channel's member set is non-empty, in every reachable state
including the initial one" is false: the module-level initial state already
stores the pre-seeded key `#hackerbot` with an empty member set. -/
theorem C2_channel_existence_cex :
    ¬ (∀ s, Reachable s → ∀ k,
        ((alookup s.chans k).isSome = true ↔ memberSet s k ≠ [])) := by
  intro hclaim
  have h2 := (hclaim initState ⟨[], rfl, rfl⟩ "#hackerbot").1 (by decide)
  exact h2 rfl

/-- C2 (amended): in every reachable state, a key with a non-empty member
set is present in the channel map, and every present key has a non-empty
member set except possibly the pre-seeded key `#hackerbot` (which the
initial state stores with an empty member set). -/
theorem C2_channel_existence_amended (s : SrvState) (hs : Reachable s) (k : String) :
    (memberSet s k ≠ [] → (alookup s.chans k).isSome = true)
    ∧ ((alookup s.chans k).isSome = true →
        memberSet s k ≠ [] ∨ k = "#hackerbot") := by
  constructor
  · intro hne
    rcases hx : alookup s.chans k with _ | m
    · rw [memberSet, hx] at hne
      simp at hne
    · rfl
  · intro hsome
    rcases hx : alookup s.chans k with _ | m
    · rw [hx] at hsome
      simp at hsome
    · rcases (inv_reachable s hs).seed_or_occupied k m hx with hone | htwo
      · left
        rw [memberSet, hx]
        simpa using hone
      · right
        exact htwo

theorem C2_channel_existence_amended_witness :
    (memberSet initState "#hackerbot" ≠ []
      → (alookup initState.chans "#hackerbot").isSome = true)
    ∧ ((alookup initState.chans "#hackerbot").isSome = true
      → memberSet initState "#hackerbot" ≠ [] ∨ "#hackerbot" = "#hackerbot") :=
  C2_channel_existence_amended initState ⟨[], rfl, rfl⟩ "#hackerbot"

/-- C8: a PRIVMSG whose target either is a `#`-name with no stored
case-folded key, or is not a `#`-name at all, produces exactly one 401
numeric to the sender and nothing else: no delivery to any other client,
no state change (in particular the sender stays connected). -/
theorem C8_privmsg_unknown_target (st : SrvState) (cid : Nat)
    (msg p0 tgt w : String) (ws : List String)
    (hparse : pySplit msg = p0 :: tgt :: w :: ws)
    (hcmd : strUpper p0 = "PRIVMSG")
    (hmiss : startsHash tgt = false ∨ alookup st.chans (strLower tgt) = none) :
    handle_message st cid msg
      = (st, [(cid, numericLine "401" (optNick ((st.sess cid).nick))
                (tgt ++ " :No such nick/channel"))]) := by
  have hne : msg ≠ "" := by
    intro hc
    rw [hc, pySplit_empty] at hparse
    cases hparse
  rw [handle_message, if_neg hne, hparse, dispatch_privmsg st cid p0 tgt w ws hcmd]
  rcases hmiss with hm | hm
  · rw [if_neg (by simp [hm])]
  · by_cases hsh : startsHash tgt = true
    · rw [if_pos hsh, hm]
    · rw [if_neg hsh]

theorem C8_privmsg_unknown_target_witness :
    handle_message initState 0 "PRIVMSG nobody :hi"
      = (initState, [(0, numericLine "401" (optNick ((initState.sess 0).nick))
                ("nobody" ++ " :No such nick/channel"))]) :=
  C8_privmsg_unknown_target initState 0 "PRIVMSG nobody :hi" "PRIVMSG" "nobody" ":hi" []
    (by decide) (by decide) (Or.inl (by decide))

/-- C9: a PART naming a channel whose case-folded key is not in the
client's channel set (whether or not the channel exists) emits no line to
anyone and leaves the whole server state unchanged. -/
theorem C9_part_nonmember_noop (st : SrvState) (cid : Nat)
    (msg p0 a : String) (rest : List String)
    (hparse : pySplit msg = p0 :: a :: rest)
    (hcmd : strUpper p0 = "PART")
    (hnot : strLower (if startsHash a then a else "#" ++ a) ∉ (st.sess cid).chans) :
    handle_message st cid msg = (st, []) := by
  have hne : msg ≠ "" := by
    intro hc
    rw [hc, pySplit_empty] at hparse
    cases hparse
  rw [handle_message, if_neg hne, hparse, dispatch_part st cid p0 a rest hcmd,
      part_noop _ _ _ hnot]

theorem C9_part_nonmember_noop_witness :
    handle_message initState 0 "PART #nosuch" = (initState, []) :=
  C9_part_nonmember_noop initState 0 "PART #nosuch" "PART" "#nosuch" []
    (by decide) (by decide) (by decide)

/-- C10: a USER line that tokenizes into fewer than five tokens is silently
ignored (no username set, no reply, no registration possible), while NICK
takes effect with a single argument token. -/
theorem C10_user_arity (st : SrvState) (cid : Nat)
    (msg msg2 p0 q0 a : String) (rest : List String)
    (hparse : pySplit msg = p0 :: rest)
    (hcmd : strUpper p0 = "USER") (hlen : (p0 :: rest).length < 5)
    (hparse2 : pySplit msg2 = [q0, a])
    (hcmd2 : strUpper q0 = "NICK") :
    handle_message st cid msg = (st, [])
    ∧ ((handle_message st cid msg2).1.sess cid).nick = some a := by
  constructor
  · have hne : msg ≠ "" := by
      intro hc
      rw [hc, pySplit_empty] at hparse
      cases hparse
    rw [handle_message, if_neg hne, hparse]
    exact dispatch_user_short st cid p0 rest hcmd hlen
  · have hne : msg2 ≠ "" := by
      intro hc
      rw [hc, pySplit_empty] at hparse2
      cases hparse2
    rw [handle_message, if_neg hne, hparse2, dispatch_nick st cid q0 a [] hcmd2]
    rw [welcome]
    simp only [setSess_sess_self]
    split
    · simp [setSess_setSess, setSess_sess_self]
    · simp [setSess_sess_self]

theorem C10_user_arity_witness :
    handle_message initState 0 "USER alice" = (initState, [])
    ∧ ((handle_message initState 0 "NICK alice").1.sess 0).nick = some "alice" :=
  C10_user_arity initState 0 "USER alice" "NICK alice" "USER" "NICK" "alice" ["alice"]
    (by decide) (by decide) (by decide) (by decide) (by decide)

/-- C3: evaluation of the code at the failing input.  After the valid
trace in which alice (client 0) creates `#Test` and bob (client 1) joins it
as `#test` — the broadcast of bob's JOIN to alice being part of that
trace's output — bob's re-JOIN of the same channel under the casing
`#TEST` broadcasts a second `JOIN #Test` line to alice.  The claim that a
re-JOIN under different casing causes no second JOIN broadcast to the
other members is therefore false on the code (the `LIST`/`NAMES` display
name, by contrast, does stay `#Test`). -/
theorem C3_rejoin_rebroadcast_bug :
    validFrom initState
        [Op.connect, Op.connect, Op.line 0 "NICK alice", Op.line 0 "USER a 0 * :x",
         Op.line 1 "NICK bob", Op.line 1 "USER b 0 * :y",
         Op.line 0 "JOIN #Test", Op.line 1 "JOIN #test"] = true
    ∧ (0, ":bob!~user@localhost JOIN #Test")
        ∈ (runFrom initState
            [Op.connect, Op.connect, Op.line 0 "NICK alice", Op.line 0 "USER a 0 * :x",
             Op.line 1 "NICK bob", Op.line 1 "USER b 0 * :y",
             Op.line 0 "JOIN #Test", Op.line 1 "JOIN #test"]).2
    ∧ (0, ":bob!~user@localhost JOIN #Test")
        ∈ (handle_message (runFrom initState
            [Op.connect, Op.connect, Op.line 0 "NICK alice", Op.line 0 "USER a 0 * :x",
             Op.line 1 "NICK bob", Op.line 1 "USER b 0 * :y",
             Op.line 0 "JOIN #Test", Op.line 1 "JOIN #test"]).1 1 "JOIN #TEST").2
    ∧ (alookup (handle_message (runFrom initState
            [Op.connect, Op.connect, Op.line 0 "NICK alice", Op.line 0 "USER a 0 * :x",
             Op.line 1 "NICK bob", Op.line 1 "USER b 0 * :y",
             Op.line 0 "JOIN #Test", Op.line 1 "JOIN #test"]).1 1 "JOIN #TEST").1.chanNames
          "#test" = some "#Test") :=
  ⟨by decide, by decide, by decide, by decide⟩

/-- C5: along every valid run from the initial state, the number of
welcome bursts a connection has received (counted by the 001 line opening
the `welcomeBurst` block, which `welcome` always emits whole) equals its
registered flag — so the burst is emitted exactly once, precisely when the
flag flips; the flag equals "both nickname and username have been set"
(regardless of the order of NICK and USER); and once true it remains true
over every valid continuation of the run. -/
theorem C5_registration_once (ops more : List Op) (c : Nat)
    (hv : validFrom initState ops = true)
    (hmore : validFrom (runFrom initState ops).1 more = true) :
    burstCount (runFrom initState ops).2 c
      = (if ((runFrom initState ops).1.sess c).registered = true then 1 else 0)
    ∧ ((runFrom initState ops).1.sess c).registered
        = (truthy ((runFrom initState ops).1.sess c).nick
           && truthy ((runFrom initState ops).1.sess c).user)
    ∧ (((runFrom initState ops).1.sess c).registered
        || ((runFrom (runFrom initState ops).1 more).1.sess c).registered)
      = ((runFrom (runFrom initState ops).1 more).1.sess c).registered := by
  have hinv1 : Inv (runFrom initState ops).1 := inv_runFrom ops initState inv_init hv
  have ht1 := burst_trace ops initState c inv_init hv
  have hzero : (if (initState.sess c).registered = true then 1 else 0) = 0 := by
    simp [initState, freshSess]
  rw [hzero] at ht1
  refine ⟨by omega, hinv1.reg_iff c, ?_⟩
  have ht2 := burst_trace more (runFrom initState ops).1 c hinv1 hmore
  by_cases hr : ((runFrom initState ops).1.sess c).registered = true
  · rw [hr] at ht2 ⊢
    rw [if_pos rfl] at ht2
    by_cases h2 : ((runFrom (runFrom initState ops).1 more).1.sess c).registered = true
    · rw [h2]
      simp
    · exfalso
      have h2f : ((runFrom (runFrom initState ops).1 more).1.sess c).registered
          = false := by simpa using h2
      rw [h2f] at ht2
      simp at ht2
  · have hrf : ((runFrom initState ops).1.sess c).registered = false := by
      simpa using hr
    rw [hrf]
    simp

theorem C5_registration_once_witness :
    burstCount (runFrom initState
        [Op.connect, Op.line 0 "NICK alice", Op.line 0 "USER a 0 * :x"]).2 0
      = (if ((runFrom initState
          [Op.connect, Op.line 0 "NICK alice", Op.line 0 "USER a 0 * :x"]).1.sess 0).registered
          = true then 1 else 0)
    ∧ ((runFrom initState
        [Op.connect, Op.line 0 "NICK alice", Op.line 0 "USER a 0 * :x"]).1.sess 0).registered
        = (truthy ((runFrom initState
            [Op.connect, Op.line 0 "NICK alice", Op.line 0 "USER a 0 * :x"]).1.sess 0).nick
           && truthy ((runFrom initState
            [Op.connect, Op.line 0 "NICK alice", Op.line 0 "USER a 0 * :x"]).1.sess 0).user)
    ∧ (((runFrom initState
        [Op.connect, Op.line 0 "NICK alice", Op.line 0 "USER a 0 * :x"]).1.sess 0).registered
        || ((runFrom (runFrom initState
            [Op.connect, Op.line 0 "NICK alice", Op.line 0 "USER a 0 * :x"]).1
            [Op.line 0 "NICK bob"]).1.sess 0).registered)
      = ((runFrom (runFrom initState
          [Op.connect, Op.line 0 "NICK alice", Op.line 0 "USER a 0 * :x"]).1
          [Op.line 0 "NICK bob"]).1.sess 0).registered :=
  C5_registration_once
    [Op.connect, Op.line 0 "NICK alice", Op.line 0 "USER a 0 * :x"]
    [Op.line 0 "NICK bob"] 0 (by decide) (by decide)

/-- C6: a member sending PRIVMSG to its channel gets no copy back, and
every other current member receives exactly one copy of the message. -/
theorem C6_privmsg_self_exclusion (st : SrvState) (hs : Reachable st) (cid : Nat)
    (msg p0 tgt w : String) (ws : List String)
    (hparse : pySplit msg = p0 :: tgt :: w :: ws)
    (hcmd : strUpper p0 = "PRIVMSG")
    (hsh : startsHash tgt = true)
    (hmem : cid ∈ memberSet st (strLower tgt)) :
    ((handle_message st cid msg).2.countP fun q => q.1 == cid) = 0
    ∧ (∀ c, c ∈ memberSet st (strLower tgt) → c ≠ cid →
        ((handle_message st cid msg).2.countP fun q => q.1 == c) = 1)
    ∧ (∀ c line, (c, line) ∈ (handle_message st cid msg).2 →
        line = fromNick (optNick ((st.sess cid).nick)) "PRIVMSG"
          ((alookup st.chanNames (strLower tgt)).getD tgt ++ " :"
            ++ lstripColon (spaceJoin (w :: ws)))) := by
  obtain ⟨mem, hlk⟩ : ∃ m, alookup st.chans (strLower tgt) = some m := by
    rcases hx : alookup st.chans (strLower tgt) with _ | m
    · rw [memberSet, hx] at hmem
      simp at hmem
    · exact ⟨m, rfl⟩
  have hmem2 : cid ∈ mem := by
    rw [memberSet, hlk] at hmem
    exact hmem
  have hnodup : mem.Nodup := (inv_reachable st hs).members_nodup _ mem hlk
  have hne : msg ≠ "" := by
    intro hc
    rw [hc, pySplit_empty] at hparse
    cases hparse
  have hout : (handle_message st cid msg).2
      = (mem.filter fun c => c != cid).map fun c =>
          (c, fromNick (optNick ((st.sess cid).nick)) "PRIVMSG"
            ((alookup st.chanNames (strLower tgt)).getD tgt ++ " :"
              ++ lstripColon (spaceJoin (w :: ws)))) := by
    rw [handle_message, if_neg hne, hparse,
      dispatch_privmsg st cid p0 tgt w ws hcmd, if_pos hsh, hlk]
  refine ⟨?_, ?_, ?_⟩
  · rw [hout, List.countP_map]
    rw [List.countP_eq_zero]
    intro a ha
    have := List.of_mem_filter ha
    simp only [Function.comp] at *
    simpa using this
  · intro c hc hcne
    have hc2 : c ∈ mem := by
      rw [memberSet, hlk] at hc
      exact hc
    rw [hout, List.countP_map]
    have hcf : c ∈ mem.filter fun x => x != cid := by
      apply List.mem_filter.2
      exact ⟨hc2, by simpa using hcne⟩
    have hnf : (mem.filter fun x => x != cid).Nodup := hnodup.filter _
    have hcount : List.count c (mem.filter fun x => x != cid) = 1 :=
      List.count_eq_one_of_mem hnf hcf
    rw [← hcount, List.count]
    rfl
  · intro c line hcl
    rw [hout] at hcl
    rcases List.mem_map.1 hcl with ⟨x, _, hx2⟩
    cases hx2
    rfl

/-- C4 (counterexample): the parser does not hand the text after `:` on
verbatim.  With alice and bob in `#c`, the line `PRIVMSG #c :hi  there`
(two spaces inside the text) is delivered to bob with the embedded run of
spaces collapsed to one — `split()` tokenizes and the dispatcher rejoins
with single spaces — so the delivered text differs from the text after the
`:` character. -/
theorem C4_trailing_verbatim_cex :
    validFrom initState
        [Op.connect, Op.connect, Op.line 0 "NICK alice", Op.line 1 "NICK bob",
         Op.line 0 "JOIN #c", Op.line 1 "JOIN #c"] = true
    ∧ (handle_message (runFrom initState
        [Op.connect, Op.connect, Op.line 0 "NICK alice", Op.line 1 "NICK bob",
         Op.line 0 "JOIN #c", Op.line 1 "JOIN #c"]).1 0 "PRIVMSG #c :hi  there").2
        = [(1, ":alice!~user@localhost PRIVMSG #c :hi there")]
    ∧ (":alice!~user@localhost PRIVMSG #c :hi there" : String)
        ≠ ":alice!~user@localhost PRIVMSG #c :hi  there" :=
  ⟨by decide, by decide, by decide⟩

/-- C4 (amended): the parser produces the upper-cased command and the
whitespace-run-separated tokens; the trailing PRIVMSG argument is
reassembled as the single-space join of the tokens after the target with
every leading `:` stripped, so the delivered text equals the text after
the `:` character for character exactly when that text is well spaced: for
every well-spaced line `PRIVMSG <target> :<text>` (single spaces between
tokens, text not starting with a further colon) addressed to a stored
channel, every delivered line carries `<text>` verbatim. -/
theorem C4_trailing_amended (st : SrvState) (cid : Nat) (tgt t0 : String)
    (ts : List String) (mem : List Nat)
    (htgt1 : tgt ≠ "") (htgt2 : ∀ c ∈ tgt.data, c.isWhitespace = false)
    (hsh : startsHash tgt = true)
    (ht01 : t0 ≠ "") (ht02 : ∀ c ∈ t0.data, c.isWhitespace = false)
    (hcolon : lstripColon t0 = t0)
    (hts : ∀ t ∈ ts, t ≠ "" ∧ ∀ c ∈ t.data, c.isWhitespace = false)
    (hlk : alookup st.chans (strLower tgt) = some mem) :
    (handle_message st cid (spaceJoin ("PRIVMSG" :: tgt :: (":" ++ t0) :: ts))).2
      = (mem.filter fun c => c != cid).map fun c =>
          (c, fromNick (optNick ((st.sess cid).nick)) "PRIVMSG"
            ((alookup st.chanNames (strLower tgt)).getD tgt ++ " :"
              ++ spaceJoin (t0 :: ts))) := by
  have htoks : ∀ t ∈ ("PRIVMSG" :: tgt :: (":" ++ t0) :: ts),
      t ≠ "" ∧ ∀ c ∈ t.data, c.isWhitespace = false := by
    intro t ht
    rcases List.mem_cons.1 ht with rfl | ht
    · exact ⟨by decide, by decide⟩
    rcases List.mem_cons.1 ht with rfl | ht
    · exact ⟨htgt1, htgt2⟩
    rcases List.mem_cons.1 ht with rfl | ht
    · constructor
      · intro hc
        have hd := congrArg String.data hc
        rw [String.data_append] at hd
        simp at hd
      · intro c hc
        rw [String.data_append] at hc
        rcases List.mem_append.1 hc with hin1 | hin1
        · rcases List.mem_singleton.1 hin1 with rfl
          decide
        · exact ht02 c hin1
    · exact hts t ht
  have hparse := pySplit_spaceJoin _ htoks
  have hne : spaceJoin ("PRIVMSG" :: tgt :: (":" ++ t0) :: ts) ≠ "" := by
    intro hc
    rw [hc, pySplit_empty] at hparse
    cases hparse
  rw [handle_message, if_neg hne, hparse,
    dispatch_privmsg st cid "PRIVMSG" tgt (":" ++ t0) ts (by decide),
    if_pos hsh, hlk]
  simp only
  rw [lstrip_colon_spaceJoin t0 ts ht01 hcolon]

theorem C4_trailing_amended_witness :
    (handle_message (runFrom initState
        [Op.connect, Op.connect, Op.line 0 "NICK alice", Op.line 1 "NICK bob",
         Op.line 0 "JOIN #c", Op.line 1 "JOIN #c"]).1 0
        (spaceJoin ("PRIVMSG" :: "#c" :: (":" ++ "hi") :: ["there"]))).2
      = (([0, 1].filter fun c => c != 0).map fun c =>
          (c, fromNick (optNick (((runFrom initState
            [Op.connect, Op.connect, Op.line 0 "NICK alice", Op.line 1 "NICK bob",
             Op.line 0 "JOIN #c", Op.line 1 "JOIN #c"]).1.sess 0).nick)) "PRIVMSG"
            ((alookup (runFrom initState
              [Op.connect, Op.connect, Op.line 0 "NICK alice", Op.line 1 "NICK bob",
               Op.line 0 "JOIN #c", Op.line 1 "JOIN #c"]).1.chanNames
              (strLower "#c")).getD "#c" ++ " :" ++ spaceJoin ("hi" :: ["there"])))) :=
  C4_trailing_amended _ 0 "#c" "hi" ["there"] [0, 1]
    (by decide) (by decide) (by decide) (by decide) (by decide) (by decide)
    (by intro t ht; rcases List.mem_singleton.1 ht with rfl; exact ⟨by decide, by decide⟩)
    (by decide)

/-- C7: after the last member of a channel parts (or disconnects), the
channel and its display name are gone from the registry, so LIST produces
no entry for it — every 322 line of LIST comes from a surviving key, all
different from the parted one — and a subsequent JOIN of any casing with
the same folded key re-creates the channel with exactly the new joiner as
member and the new casing as the canonical display name. -/
theorem C7_empty_channel_cleanup (st : SrvState) (hs : Reachable st)
    (cid c2 c3 : Nat) (msg p0 a msg2 q0 b : String) (rest rest2 : List String)
    (hparse : pySplit msg = p0 :: a :: rest)
    (hcmd : strUpper p0 = "PART")
    (hlast : memberSet st (strLower (if startsHash a then a else "#" ++ a)) = [cid])
    (hparse2 : pySplit msg2 = q0 :: b :: rest2)
    (hcmd2 : strUpper q0 = "JOIN")
    (hfold : strLower (if startsHash b then b else "#" ++ b)
      = strLower (if startsHash a then a else "#" ++ a)) :
    (alookup (handle_message st cid msg).1.chans
        (strLower (if startsHash a then a else "#" ++ a)) = none)
    ∧ (alookup (handle_message st cid msg).1.chanNames
        (strLower (if startsHash a then a else "#" ++ a)) = none)
    ∧ (strLower (if startsHash a then a else "#" ++ a)
        ∉ (handle_message st cid msg).1.chans.map Prod.fst)
    ∧ ((handle_message (handle_message st cid msg).1 c2 "LIST").2
        = ((handle_message st cid msg).1.chans.map fun kv =>
            (c2, numericLine "322" (optNick (((handle_message st cid msg).1.sess c2).nick))
              ((alookup (handle_message st cid msg).1.chanNames kv.1).getD kv.1
                ++ " " ++ toString kv.2.length ++ " :Development Channel")))
          ++ [(c2, numericLine "323"
                (optNick (((handle_message st cid msg).1.sess c2).nick)) ":End of LIST")])
    ∧ (alookup (handle_message (handle_message st cid msg).1 c3 msg2).1.chans
        (strLower (if startsHash a then a else "#" ++ a)) = some [c3])
    ∧ (alookup (handle_message (handle_message st cid msg).1 c3 msg2).1.chanNames
        (strLower (if startsHash a then a else "#" ++ a))
        = some (if startsHash b then b else "#" ++ b))
    ∧ (alookup (disconnect st cid).1.chans
        (strLower (if startsHash a then a else "#" ++ a)) = none)
    ∧ (alookup (disconnect st cid).1.chanNames
        (strLower (if startsHash a then a else "#" ++ a)) = none) := by
  have hinv := inv_reachable st hs
  have hin : strLower (if startsHash a then a else "#" ++ a) ∈ (st.sess cid).chans := by
    refine (hinv.mem_iff cid _).2 ?_
    rw [hlast]
    exact List.mem_singleton_self cid
  have hcid : cid < st.nextId := by
    rcases Nat.lt_or_ge cid st.nextId with h1 | h1
    · exact h1
    · exfalso
      have hf := hinv.fresh_hi cid h1
      rw [hf] at hin
      simp [freshSess] at hin
  have hmsgne : msg ≠ "" := by
    intro hc
    rw [hc, pySplit_empty] at hparse
    cases hparse
  have hpart : handle_message st cid msg
      = part_channel st cid (if startsHash a then a else "#" ++ a) := by
    rw [handle_message, if_neg hmsgne, hparse, dispatch_part st cid p0 a rest hcmd]
  have hrm := part_removes_last st cid (if startsHash a then a else "#" ++ a) hin hlast
  have hc1 : alookup (handle_message st cid msg).1.chans
      (strLower (if startsHash a then a else "#" ++ a)) = none := by
    rw [hpart]
    exact hrm.1
  have hc2 : alookup (handle_message st cid msg).1.chanNames
      (strLower (if startsHash a then a else "#" ++ a)) = none := by
    rw [hpart]
    exact hrm.2
  have hmsg2ne : msg2 ≠ "" := by
    intro hc
    rw [hc, pySplit_empty] at hparse2
    cases hparse2
  have hjoin : handle_message (handle_message st cid msg).1 c3 msg2
      = join_channel (handle_message st cid msg).1 c3
          (if startsHash b then b else "#" ++ b) := by
    rw [handle_message, if_neg hmsg2ne, hparse2,
      dispatch_join _ c3 q0 b rest2 hcmd2]
  refine ⟨hc1, hc2, (alookup_eq_none_iff _ _).1 hc1, ?_, ?_, ?_, ?_, ?_⟩
  · exact congrArg Prod.snd (handle_LIST _ c2)
  · rw [hjoin, join_fst_new _ c3 _ (by rw [hfold]; exact hc1)]
    simp only
    rw [← hfold]
    exact alookup_append_of_none _ (by rw [hfold]; exact hc1)
  · rw [hjoin, join_fst_new _ c3 _ (by rw [hfold]; exact hc1)]
    simp only
    rw [← hfold]
    exact alookup_append_of_none _ (by rw [hfold]; exact hc2)
  · rw [disconnect]
    exact (partAll_removes cid (st.sess cid).chans
      { st with clients := st.clients.erase cid } _
      { mem_iff := hinv.mem_iff, chanKeys_nodup := hinv.chanKeys_nodup
        nameKeys_nodup := hinv.nameKeys_nodup, keys_align := hinv.keys_align
        canon_lower := hinv.canon_lower, fresh_hi := hinv.fresh_hi
        seed_or_occupied := hinv.seed_or_occupied, reg_iff := hinv.reg_iff
        sessChans_nodup := hinv.sessChans_nodup, members_nodup := hinv.members_nodup
        nick_noWs := hinv.nick_noWs }
      hcid (hinv.sessChans_nodup cid) (fun k2 hk2 => hk2) hin hlast).1
  · rw [disconnect]
    exact (partAll_removes cid (st.sess cid).chans
      { st with clients := st.clients.erase cid } _
      { mem_iff := hinv.mem_iff, chanKeys_nodup := hinv.chanKeys_nodup
        nameKeys_nodup := hinv.nameKeys_nodup, keys_align := hinv.keys_align
        canon_lower := hinv.canon_lower, fresh_hi := hinv.fresh_hi
        seed_or_occupied := hinv.seed_or_occupied, reg_iff := hinv.reg_iff
        sessChans_nodup := hinv.sessChans_nodup, members_nodup := hinv.members_nodup
        nick_noWs := hinv.nick_noWs }
      hcid (hinv.sessChans_nodup cid) (fun k2 hk2 => hk2) hin hlast).2

theorem C7_empty_channel_cleanup_witness :
    (alookup (handle_message (runFrom initState
        [Op.connect, Op.line 0 "JOIN #Chan"]).1 0 "PART #CHAN").1.chans
        (strLower (if startsHash "#CHAN" then "#CHAN" else "#" ++ "#CHAN")) = none)
    ∧ (alookup (handle_message (runFrom initState
        [Op.connect, Op.line 0 "JOIN #Chan"]).1 0 "PART #CHAN").1.chanNames
        (strLower (if startsHash "#CHAN" then "#CHAN" else "#" ++ "#CHAN")) = none)
    ∧ (strLower (if startsHash "#CHAN" then "#CHAN" else "#" ++ "#CHAN")
        ∉ (handle_message (runFrom initState
        [Op.connect, Op.line 0 "JOIN #Chan"]).1 0 "PART #CHAN").1.chans.map Prod.fst)
    ∧ ((handle_message (handle_message (runFrom initState
          [Op.connect, Op.line 0 "JOIN #Chan"]).1 0 "PART #CHAN").1 0 "LIST").2
        = ((handle_message (runFrom initState
            [Op.connect, Op.line 0 "JOIN #Chan"]).1 0 "PART #CHAN").1.chans.map fun kv =>
            (0, numericLine "322" (optNick (((handle_message (runFrom initState
              [Op.connect, Op.line 0 "JOIN #Chan"]).1 0 "PART #CHAN").1.sess 0).nick))
              ((alookup (handle_message (runFrom initState
                [Op.connect, Op.line 0 "JOIN #Chan"]).1 0 "PART #CHAN").1.chanNames kv.1).getD kv.1
                ++ " " ++ toString kv.2.length ++ " :Development Channel")))
          ++ [(0, numericLine "323"
                (optNick (((handle_message (runFrom initState
                  [Op.connect, Op.line 0 "JOIN #Chan"]).1 0 "PART #CHAN").1.sess 0).nick))
                ":End of LIST")])
    ∧ (alookup (handle_message (handle_message (runFrom initState
        [Op.connect, Op.line 0 "JOIN #Chan"]).1 0 "PART #CHAN").1 0 "JOIN Chan").1.chans
        (strLower (if startsHash "#CHAN" then "#CHAN" else "#" ++ "#CHAN")) = some [0])
    ∧ (alookup (handle_message (handle_message (runFrom initState
        [Op.connect, Op.line 0 "JOIN #Chan"]).1 0 "PART #CHAN").1 0 "JOIN Chan").1.chanNames
        (strLower (if startsHash "#CHAN" then "#CHAN" else "#" ++ "#CHAN"))
        = some (if startsHash "Chan" then "Chan" else "#" ++ "Chan"))
    ∧ (alookup (disconnect (runFrom initState
        [Op.connect, Op.line 0 "JOIN #Chan"]).1 0).1.chans
        (strLower (if startsHash "#CHAN" then "#CHAN" else "#" ++ "#CHAN")) = none)
    ∧ (alookup (disconnect (runFrom initState
        [Op.connect, Op.line 0 "JOIN #Chan"]).1 0).1.chanNames
        (strLower (if startsHash "#CHAN" then "#CHAN" else "#" ++ "#CHAN")) = none) :=
  C7_empty_channel_cleanup _
    ⟨[Op.connect, Op.line 0 "JOIN #Chan"], by decide, rfl⟩
    0 0 0 "PART #CHAN" "PART" "#CHAN" "JOIN Chan" "JOIN" "Chan" [] []
    (by decide) (by decide) (by decide) (by decide) (by decide) (by decide)

theorem C6_privmsg_self_exclusion_witness :
    (((handle_message (runFrom initState
        [Op.connect, Op.connect, Op.line 0 "NICK alice", Op.line 1 "NICK bob",
         Op.line 0 "JOIN #c", Op.line 1 "JOIN #c"]).1 0 "PRIVMSG #c :hi").2.countP
        fun q => q.1 == 0) = 0)
    ∧ (∀ c, c ∈ memberSet (runFrom initState
        [Op.connect, Op.connect, Op.line 0 "NICK alice", Op.line 1 "NICK bob",
         Op.line 0 "JOIN #c", Op.line 1 "JOIN #c"]).1 (strLower "#c") → c ≠ 0 →
        (((handle_message (runFrom initState
          [Op.connect, Op.connect, Op.line 0 "NICK alice", Op.line 1 "NICK bob",
           Op.line 0 "JOIN #c", Op.line 1 "JOIN #c"]).1 0 "PRIVMSG #c :hi").2.countP
          fun q => q.1 == c) = 1))
    ∧ (∀ c line, (c, line) ∈ (handle_message (runFrom initState
        [Op.connect, Op.connect, Op.line 0 "NICK alice", Op.line 1 "NICK bob",
         Op.line 0 "JOIN #c", Op.line 1 "JOIN #c"]).1 0 "PRIVMSG #c :hi").2 →
        line = fromNick (optNick (((runFrom initState
          [Op.connect, Op.connect, Op.line 0 "NICK alice", Op.line 1 "NICK bob",
           Op.line 0 "JOIN #c", Op.line 1 "JOIN #c"]).1.sess 0).nick)) "PRIVMSG"
          ((alookup (runFrom initState
            [Op.connect, Op.connect, Op.line 0 "NICK alice", Op.line 1 "NICK bob",
             Op.line 0 "JOIN #c", Op.line 1 "JOIN #c"]).1.chanNames (strLower "#c")).getD "#c"
            ++ " :" ++ lstripColon (spaceJoin [":hi"]))) :=
  C6_privmsg_self_exclusion _
    ⟨[Op.connect, Op.connect, Op.line 0 "NICK alice", Op.line 1 "NICK bob",
      Op.line 0 "JOIN #c", Op.line 1 "JOIN #c"], by decide, rfl⟩
    0 "PRIVMSG #c :hi" "PRIVMSG" "#c" ":hi" []
    (by decide) (by decide) (by decide) (by decide)

end IRC
